import Mathlib

/-!
# radix: MADT discovery (arch/i386/acpi.c) and the VGA tty (arch/i386/tty.c)

A shallow embedding of the table walk, the record handlers and the discovery
driver of `arch/i386/acpi.c`, and of the buffered tty of `arch/i386/tty.c`.

Conventions.
* Memory is a function from byte offsets to values; a byte read reduces the
  stored value modulo 256, multi-byte fields are little-endian (i386).
* Pointers into the MADT are byte offsets from the first byte of the table.
* Calls to code outside these two files (`klog`, `ioapic_add`,
  `ioapic_set_vector`, ...) are recorded, in order, in a trace of events.
* Loops that the C code does not bound are run with a fuel counter; running
  out of fuel is an outcome of its own, distinct from returning.
* C `int` values are carried as their 32-bit two's-complement words.
-/

namespace Radix

/-! ## Memory and fixed-width reads -/

/-- Byte-addressed memory. -/
abbrev Mem := Nat → Nat

/-- Read a `uint8_t`. -/
def read8 (m : Mem) (a : Nat) : Nat := m a % 256

/-- Read a little-endian `uint16_t`. -/
def read16 (m : Mem) (a : Nat) : Nat := read8 m a + 256 * read8 m (a + 1)

/-- Read a little-endian `uint32_t`. -/
def read32 (m : Mem) (a : Nat) : Nat :=
  read8 m a + 256 * read8 m (a + 1) + 65536 * read8 m (a + 2) + 16777216 * read8 m (a + 3)

/-- Subtraction of two `uint32_t` values, as the machine performs it. -/
def sub32 (a b : Nat) : Nat := (a % 4294967296 + 4294967296 - b % 4294967296) % 4294967296

/-! ## The MADT and its subtables

The declarations of `acpi/tables/madt.h` are not among the sources; the
layouts below are the ones the ACPI MADT fixes (a one-byte type and a one-byte
length in front of every record). -/

/-- The table as `madt_walk` sees it: `header.length`, `address`, and the
memory the table pointer points into (offset 0 is the first byte of the
table; the function also covers whatever lies behind the table). -/
structure acpi_madt where
  length : Nat
  address : Nat
  bytes : Mem

/-- The value of `sizeof (struct acpi_madt)`: the 36-byte SDT header, `address` and `flags`. -/
def sizeof_acpi_madt : Nat := 44

/-- Subtable type tag of a Local-APIC record. -/
def ACPI_MADT_LOCAL_APIC : Nat := 0
/-- Subtable type tag of an I/O-APIC record. -/
def ACPI_MADT_IO_APIC : Nat := 1
/-- Subtable type tag of an Interrupt-Source-Override record. -/
def ACPI_MADT_INTERRUPT_OVERRIDE : Nat := 2

/-- Mask of the polarity field of the MPS INTI flags (low two bits). -/
def ACPI_MADT_INTI_POLARITY_MASK : Nat := 0x3
/-- Mask of the trigger-mode field of the MPS INTI flags (next two bits). -/
def ACPI_MADT_INTI_TRIGGER_MODE_MASK : Nat := 0xC

/-- Field `header->type` of the record at offset `p`. -/
def hdr_type (m : Mem) (p : Nat) : Nat := read8 m p
/-- Field `header->length` of the record at offset `p`. -/
def hdr_length (m : Mem) (p : Nat) : Nat := read8 m (p + 1)

/-- Field `apic_id` of the `struct acpi_madt_local_apic` at offset `p`. -/
def lapic_apic_id (m : Mem) (p : Nat) : Nat := read8 m (p + 3)
/-- Field `flags` of a Local-APIC record. -/
def lapic_flags (m : Mem) (p : Nat) : Nat := read32 m (p + 4)

/-- Field `id` of the `struct acpi_madt_io_apic` at offset `p`. -/
def io_apic_id (m : Mem) (p : Nat) : Nat := read8 m (p + 2)
/-- Field `address` of an I/O-APIC record. -/
def io_apic_address (m : Mem) (p : Nat) : Nat := read32 m (p + 4)
/-- Field `global_irq_base` of an I/O-APIC record. -/
def io_apic_global_irq_base (m : Mem) (p : Nat) : Nat := read32 m (p + 8)

/-- Field `bus_source` of the `struct acpi_madt_interrupt_override` at offset `p`. -/
def override_bus_source (m : Mem) (p : Nat) : Nat := read8 m (p + 2)
/-- Field `irq_source` of an override record. -/
def override_irq_source (m : Mem) (p : Nat) : Nat := read8 m (p + 3)
/-- Field `global_irq` of an override record. -/
def override_global_irq (m : Mem) (p : Nat) : Nat := read32 m (p + 4)
/-- Field `flags` of an override record. -/
def override_flags (m : Mem) (p : Nat) : Nat := read16 m (p + 8)

/-! ## Effects -/

/-- The fields of `struct ioapic` that `acpi.c` reads through the pointer
returned by `ioapic_from_vector`. -/
structure ioapic where
  id : Nat
  irq_base : Nat
deriving DecidableEq, Repr

/-- Severity argument of `klog`. -/
inductive klog_level where
  | KLOG_INFO
  | KLOG_ERROR
deriving DecidableEq, Repr

/-- The five messages `acpi.c` logs, with their arguments. -/
inductive klog_msg where
  /-- Message "LAPIC id %d %sactive". -/
  | lapic (apic_id : Nat) (active : Bool)
  /-- Message "I/O APIC id %d base %p irq_base %d". -/
  | io_apic (id address irq_base : Nat)
  /-- Message "ignoring ISA IRQ override for invalid vector %d". -/
  | ignoring_override (irq_source : Nat)
  /-- Message "IRQ override bus %d int %d ioapic %d pin %d". -/
  | irq_override (bus_source irq_source ioapic_id pin : Nat)
  /-- Message "local APIC %p". -/
  | local_apic (phys_base : Nat)
deriving DecidableEq, Repr

/-- One call out of `acpi.c`. -/
inductive Event where
  | klog (level : klog_level) (msg : klog_msg)
  | ioapic_add (id address irq_base : Nat)
  | ioapic_set_vector (io : ioapic) (pin vec : Nat)
  | ioapic_set_polarity (io : ioapic) (pin polarity : Nat)
  | ioapic_set_trigger_mode (io : ioapic) (pin trigger : Nat)
deriving DecidableEq, Repr

/-- The calls issued so far, oldest first. -/
abbrev Trace := List Event

/-- The state `acpi.c` acts on: the global `lapic_phys_base` and the trace. -/
structure World where
  lapic_phys_base : Nat
  trace : Trace
deriving DecidableEq, Repr

/-- Append calls to the trace. -/
def World.emit (w : World) (es : List Event) : World :=
  { w with trace := w.trace ++ es }

/-- How a run ends: the function returned (`done`), it dereferenced a null
pointer (`fault`, with the state reached), or the fuel ran out (`timeout`). -/
inductive Outcome (ρ σ : Type) where
  | done (ret : ρ) (s : σ)
  | fault (s : σ)
  | timeout (s : σ)
deriving DecidableEq, Repr

/-- The state an outcome carries. -/
def Outcome.state {ρ σ : Type} : Outcome ρ σ → σ
  | .done _ s => s
  | .fault s => s
  | .timeout s => s

/-- Whether the function returned. -/
def Outcome.returned {ρ σ : Type} : Outcome ρ σ → Bool
  | .done _ _ => true
  | _ => false

/-- The lookup `ioapic_from_vector` is defined outside these sources: it is a
parameter, a function of the calls issued so far (which determine the
registry) and of its argument; `none` is the null pointer. -/
abbrev Lookup := Trace → Nat → Option ioapic

/-! ## The record handlers -/

/-- Handler `__madt_lapic`. -/
def __madt_lapic (m : Mem) (s : Nat) (w : World) : World :=
  w.emit [.klog .KLOG_INFO (.lapic (lapic_apic_id m s) (lapic_flags m s &&& 1 != 0))]

/-- Handler `__madt_ioapic`. -/
def __madt_ioapic (m : Mem) (s : Nat) (w : World) : World :=
  w.emit [.ioapic_add (io_apic_id m s) (io_apic_address m s) (io_apic_global_irq_base m s),
          .klog .KLOG_INFO
            (.io_apic (io_apic_id m s) (io_apic_address m s) (io_apic_global_irq_base m s))]

/-- Handler `__madt_override`: `.error` is the state at the null dereference
`ioapic->irq_base`, reached when the lookup returned no controller. The
`int pin` is the 32-bit word of the unsigned difference
`s->global_irq - ioapic->irq_base`. -/
def __madt_override (ioapic_from_vector : Lookup) (m : Mem) (s : Nat) (w : World) :
    Except World World :=
  let found := ioapic_from_vector w.trace (override_irq_source m s)
  let w1 :=
    if found.isNone then
      w.emit [.klog .KLOG_ERROR (.ignoring_override (override_irq_source m s))]
    else w
  match found with
  | none => .error w1
  | some io =>
    let pin := sub32 (override_global_irq m s) io.irq_base
    let polarity := override_flags m s &&& ACPI_MADT_INTI_POLARITY_MASK
    let trigger := override_flags m s &&& ACPI_MADT_INTI_TRIGGER_MODE_MASK
    .ok (w1.emit [.ioapic_set_vector io pin (override_irq_source m s),
                  .ioapic_set_polarity io pin polarity,
                  .ioapic_set_trigger_mode io pin trigger,
                  .klog .KLOG_INFO
                    (.irq_override (override_bus_source m s) (override_irq_source m s) io.id pin)])

/-! ## The walk -/

/-- The loop of `madt_walk` from cursor `p`: `fuel` bounds the number of
handler calls. The handler gets the cursor and the state; `.error` is a fault
inside the handler. -/
def madt_walk_loop {σ : Type} (madt : acpi_madt) (entry_handler : Mem → Nat → σ → Except σ σ) :
    Nat → Nat → σ → Outcome Unit σ
  | fuel, p, s =>
    if p < madt.length then
      match fuel with
      | 0 => .timeout s
      | fuel + 1 =>
        match entry_handler madt.bytes p s with
        | .error s1 => .fault s1
        | .ok s1 => madt_walk_loop madt entry_handler fuel (p + hdr_length madt.bytes p) s1
    else .done () s

/-- The function `madt_walk`: `p = madt + 1`, `end = madt + madt->header.length`. -/
def madt_walk {σ : Type} (madt : acpi_madt) (entry_handler : Mem → Nat → σ → Except σ σ)
    (fuel : Nat) (s : σ) : Outcome Unit σ :=
  madt_walk_loop madt entry_handler fuel sizeof_acpi_madt s

/-- Handler `madt_parse_ioapics`. -/
def madt_parse_ioapics (m : Mem) (header : Nat) (w : World) : Except World World :=
  if hdr_type m header = ACPI_MADT_IO_APIC then .ok (__madt_ioapic m header w)
  else .ok w

/-- Handler `madt_parse_all`. -/
def madt_parse_all (ioapic_from_vector : Lookup) (m : Mem) (header : Nat) (w : World) :
    Except World World :=
  if hdr_type m header = ACPI_MADT_LOCAL_APIC then .ok (__madt_lapic m header w)
  else if hdr_type m header = ACPI_MADT_INTERRUPT_OVERRIDE then
    __madt_override ioapic_from_vector m header w
  else .ok w

/-- The driver `acpi_parse_madt`: `acpi_find_table` is outside these sources, its result
(`none` for a null pointer) is a parameter. The return value is the C `int`. -/
def acpi_parse_madt (acpi_find_table : Option acpi_madt) (ioapic_from_vector : Lookup)
    (fuel : Nat) (w : World) : Outcome Nat World :=
  match acpi_find_table with
  | none => .done 1 w
  | some madt =>
    let w1 : World := { w with lapic_phys_base := madt.address }
    let w2 := w1.emit [.klog .KLOG_INFO (.local_apic madt.address)]
    match madt_walk madt madt_parse_ioapics fuel w2 with
    | .fault s => .fault s
    | .timeout s => .timeout s
    | .done _ w3 =>
      match madt_walk madt (madt_parse_all ioapic_from_vector) fuel w3 with
      | .fault s => .fault s
      | .timeout s => .timeout s
      | .done _ w4 => .done 0 w4

/-! ## Instruments for stating properties of the walk -/

/-- A handler without effect. -/
def idle {σ : Type} : Mem → Nat → σ → Except σ σ := fun _ _ s => .ok s

/-- The handler `h`, which in addition notes every cursor it is handed. -/
def logged {σ : Type} (h : Mem → Nat → σ → Except σ σ) :
    Mem → Nat → σ × List Nat → Except (σ × List Nat) (σ × List Nat) :=
  fun m p s =>
    match h m p s.1 with
    | .ok s1 => .ok (s1, s.2 ++ [p])
    | .error s1 => .error (s1, s.2 ++ [p])

/-- Memory holding the bytes `bs` from offset 0 on, and 0 behind them. -/
def mem_of (bs : List Nat) : Mem := fun a => bs.getD a 0

/-- The records at `rs` follow one another from cursor `p` to cursor `q`:
each starts where its predecessor's declared length ends. -/
def Chain (m : Mem) : Nat → List Nat → Nat → Prop
  | p, [], q => p = q
  | p, r :: rs, q => r = p ∧ Chain m (p + hdr_length m p) rs q

/-- Well-formed table body: the records at `rs` have positive declared
lengths and follow one another from `p` exactly to `q`. -/
def Tiles (m : Mem) : Nat → List Nat → Nat → Prop
  | p, [], q => p = q
  | p, r :: rs, q => r = p ∧ 0 < hdr_length m p ∧ Tiles m (p + hdr_length m p) rs q

/-- The calls pass 1 issues for the records at `rs`. -/
def pass1_events (m : Mem) : List Nat → List Event
  | [] => []
  | r :: rs =>
    (if hdr_type m r = ACPI_MADT_IO_APIC then
      [.ioapic_add (io_apic_id m r) (io_apic_address m r) (io_apic_global_irq_base m r),
       .klog .KLOG_INFO
         (.io_apic (io_apic_id m r) (io_apic_address m r) (io_apic_global_irq_base m r))]
     else []) ++ pass1_events m rs

/-- The registrations (`ioapic_add` calls) of a trace, in order. -/
def registrations : Trace → List (Nat × Nat × Nat)
  | [] => []
  | .ioapic_add id address irq_base :: t => (id, address, irq_base) :: registrations t
  | _ :: t => registrations t

/-- Whether an event is a controller registration. -/
def Event.isRegistration : Event → Bool
  | .ioapic_add _ _ _ => true
  | _ => false

/-- Whether an event is a routing configuration call. -/
def Event.isConfiguration : Event → Bool
  | .ioapic_set_vector _ _ _ => true
  | .ioapic_set_polarity _ _ _ => true
  | .ioapic_set_trigger_mode _ _ _ => true
  | _ => false

/-- Forty-four zero bytes: a table header whose content the walk never reads. -/
def blank_header : List Nat := List.replicate 44 0

/-- A table with a Local-APIC record of 8 bytes at offset 44 followed, at
offset 52, by a record that declares length 0. -/
def zero_length_table : acpi_madt :=
  { length := 60, address := 0,
    bytes := mem_of (blank_header ++ [0, 8, 0, 1, 1, 0, 0, 0] ++ [1, 0, 0, 0, 0, 0, 0, 0]) }

/-- A table of 46 bytes whose last two bytes are the prefix of an I/O-APIC
record declaring 12 bytes; the ten bytes behind the table are not part of it. -/
def overrun_table : acpi_madt :=
  { length := 46, address := 0,
    bytes := mem_of (blank_header ++ [1, 12, 7, 0, 0, 0, 0xC0, 0xFE, 24, 0, 0, 0]) }

/-- The table of the concrete scenario: one I/O-APIC record (id 0, address
0xFEC00000, global_irq_base 0) at offset 44, one Local-APIC record (apic id 0,
enabled) at offset 56, and one override record (bus 0, IRQ 9, global irq 9,
flags 0b1111: active low, level triggered) at offset 64. -/
def scenario_table : acpi_madt :=
  { length := 74, address := 0xFEE00000,
    bytes := mem_of (blank_header ++ [1, 12, 0, 0, 0, 0, 0xC0, 0xFE, 0, 0, 0, 0]
      ++ [0, 8, 0, 0, 1, 0, 0, 0] ++ [2, 10, 0, 9, 9, 0, 0, 0, 0xF, 0]) }

/-- The controller a call is issued on, for the calls that take one. -/
def Event.controller : Event → Option ioapic
  | .ioapic_set_vector io _ _ => some io
  | .ioapic_set_polarity io _ _ => some io
  | .ioapic_set_trigger_mode io _ _ => some io
  | _ => none

/-- Modelled from the spec: the registry and its lookup by owned range
(`ioapic_add` and `ioapic_from_vector` live outside these sources). The
registry holds the controllers registered so far in registration order; a
controller owns `pins` consecutive interrupt numbers from its base, and the
lookup returns the first controller whose range contains `n`. It instantiates
the lookup parameter in the examples. -/
def registry_lookup (pins : Nat) : Lookup
  | [], _ => none
  | .ioapic_add id _ irq_base :: t, n =>
    if irq_base ≤ n ∧ n < irq_base + pins then some ⟨id, irq_base⟩
    else registry_lookup pins t n
  | _ :: t, n => registry_lookup pins t n

/-- A world in which two controllers are registered: id 0 from interrupt 0
and id 1 from interrupt 24. -/
def two_controllers : World :=
  ⟨0, [.ioapic_add 0 0xFEC00000 0, .ioapic_add 1 0xFEC01000 24]⟩

/-- An override record at offset 0: bus 0, legacy IRQ 5, global interrupt 30,
flags 0. -/
def override_5_to_30 : Mem := mem_of [2, 10, 0, 5, 30, 0, 0, 0, 0, 0]

/-- The records of `scenario_table` in another order: the override record
(IRQ 9, global irq 9, flags 0b1111) at offset 44 comes before the I/O-APIC
record (id 0, global_irq_base 0) at offset 54. -/
def override_first_table : acpi_madt :=
  { length := 66, address := 0xFEE00000,
    bytes := mem_of (blank_header ++ [2, 10, 0, 9, 9, 0, 0, 0, 0xF, 0]
      ++ [1, 12, 0, 0, 0, 0, 0xC0, 0xFE, 0, 0, 0, 0]) }

/-- A table without any I/O-APIC record: an override record (IRQ 9, global
interrupt 9) at offset 44 and a Local-APIC record at offset 54. -/
def unresolved_table : acpi_madt :=
  { length := 62, address := 0xFEE00000,
    bytes := mem_of (blank_header ++ [2, 10, 0, 9, 9, 0, 0, 0, 0, 0]
      ++ [0, 8, 0, 3, 1, 0, 0, 0]) }

/-- A table with a record of a type this code does not interpret (type 4,
six bytes) at offset 44, in front of a Local-APIC record at offset 50. -/
def forward_compat_table : acpi_madt :=
  { length := 58, address := 0xFEE00000,
    bytes := mem_of (blank_header ++ [4, 6, 0, 0, 0, 0] ++ [0, 8, 0, 3, 1, 0, 0, 0]) }

/-! ## The tty (arch/i386/tty.c)

The headers `vga.h` and `untitled/tty.h` are not among the sources. The
screen geometry and the tab stop have their usual values; the colour
constants and the two entry-packing helpers of `vga.h` are parameters. -/

/-- Columns of the VGA text screen. -/
def VGA_WIDTH : Nat := 80
/-- Rows of the VGA text screen. -/
def VGA_HEIGHT : Nat := 25
/-- Distance between tab stops. -/
def TTY_TAB_STOP : Nat := 8
/-- Size of the tty buffer. -/
def TTY_BUFSIZE : Nat := VGA_HEIGHT * VGA_WIDTH
/-- The escape character. -/
def ASCII_ESC : Nat := 0x1B
/-- Range of `size_t` on i386. -/
def SIZE_MAX_PLUS_1 : Nat := 4294967296

/-- What the tty takes from `vga.h`. -/
structure vga_h where
  VGA_COLOR_WHITE : Nat
  VGA_COLOR_BLACK : Nat
  VGA_NORMAL : Nat
  VGA_BOLD : Nat
  vga_entry_color : Nat → Nat → Nat
  vga_entry : Int → Nat → Nat

/-- The customary definitions of `vga.h`, used in the examples. -/
def standard_vga : vga_h :=
  { VGA_COLOR_WHITE := 15, VGA_COLOR_BLACK := 0, VGA_NORMAL := 0, VGA_BOLD := 8,
    vga_entry_color := fun fg bg => (fg ||| (bg <<< 4)) % 256,
    vga_entry := fun c color => ((c % 65536).toNat ||| (color <<< 8)) % 65536 }

/-- The static variables of `tty.c`. `vga_buf` maps a cell index to the
entry stored there, `tty_buf` maps an index to the byte stored there (indices
from `TTY_BUFSIZE` on are the memory behind the array), `tty_pos` is the
offset `tty_pos - tty_buf`. `written` is not a variable of the program: it
lists, oldest first, the cell indices that `tty_put` and the clearing loop of
`tty_nextrow` have stored to. -/
structure tty where
  vga_row : Nat
  vga_col : Nat
  vga_fg : Nat
  vga_bg : Nat
  vga_color : Nat
  vga_buf : Nat → Nat
  tty_buf : Nat → Nat
  tty_pos : Nat
  written : List Nat

/-- The statics before `tty_init`: zero-initialised storage. -/
def tty_boot : tty :=
  { vga_row := 0, vga_col := 0, vga_fg := 0, vga_bg := 0, vga_color := 0,
    vga_buf := fun _ => 0, tty_buf := fun _ => 0, tty_pos := 0, written := [] }

/-- A `char` read from the buffer, promoted to `int` (`char` is signed). -/
def char_to_int (b : Nat) : Int :=
  if b % 256 < 128 then (b % 256 : Nat) else ((b % 256 : Nat) : Int) - 256

/-- The function `isdigit` on a byte. -/
def isdigit (b : Nat) : Bool := 48 ≤ b && b ≤ 57

/-- The function `tty_init`. -/
def tty_init (v : vga_h) (t : tty) : tty :=
  let color := v.vga_entry_color v.VGA_COLOR_WHITE v.VGA_COLOR_BLACK
  { t with
    vga_row := 0, vga_col := 0, vga_fg := v.VGA_COLOR_WHITE, vga_bg := v.VGA_COLOR_BLACK,
    vga_color := color, tty_pos := 0,
    vga_buf := fun ind =>
      if ind < VGA_HEIGHT * VGA_WIDTH then v.vga_entry 32 color else t.vga_buf ind }

/-- The function `tty_put`: store `c` at column `x` of row `y`. -/
def tty_put (v : vga_h) (c : Int) (color : Nat) (x y : Nat) (t : tty) : tty :=
  let ind := (y * VGA_WIDTH + x) % SIZE_MAX_PLUS_1
  { t with
    vga_buf := fun i => if i = ind then v.vga_entry c color else t.vga_buf i,
    written := t.written ++ [ind] }

/-- The function `tty_nextrow`. -/
def tty_nextrow (v : vga_h) (t : tty) : tty :=
  if t.vga_row = VGA_HEIGHT - 1 then
    let moved : Nat → Nat := fun i =>
      if i < t.vga_row * VGA_WIDTH then t.vga_buf (i + VGA_WIDTH) else t.vga_buf i
    { t with
      vga_col := 0,
      vga_buf := fun i =>
        if t.vga_row * VGA_WIDTH ≤ i ∧ i < t.vga_row * VGA_WIDTH + VGA_WIDTH then
          v.vga_entry 32 t.vga_color
        else moved i,
      written := t.written ++ (List.range VGA_WIDTH).map (fun x => t.vga_row * VGA_WIDTH + x) }
  else
    { t with vga_col := 0, vga_row := (t.vga_row + 1) % SIZE_MAX_PLUS_1 }

/-- The function `get_ansi_command` on the buffer from index `s`; `none` when
the fuel runs out. -/
def get_ansi_command (buf : Nat → Nat) : Nat → Nat → Option Nat
  | fuel, s =>
    if isdigit (buf s) || buf s == 59 then
      match fuel with
      | 0 => none
      | fuel + 1 => get_ansi_command buf fuel (s + 1)
    else some (buf s)

/-- The inner loop of `set_mode`: accumulate the decimal number at `s[n]`. -/
def set_mode_number (buf : Nat → Nat) (s : Nat) : Nat → Nat → Nat → Option (Nat × Nat)
  | fuel, i, n =>
    if isdigit (buf (s + n)) then
      match fuel with
      | 0 => none
      | fuel + 1 =>
        set_mode_number buf s fuel ((10 * i + (buf (s + n) - 48)) % SIZE_MAX_PLUS_1) (n + 1)
    else some (i, n)

/-- The outer loop of `set_mode` from offset `n` with the current
`intensity`; the result is the state and the value returned. -/
def set_mode_loop (v : vga_h) (s : Nat) : Nat → Nat → Nat → tty → Option (tty × Nat)
  | fuel, n, intensity, t =>
    if t.tty_buf (s + n) ≠ 109 then
      match fuel with
      | 0 => none
      | fuel + 1 =>
        match set_mode_number t.tty_buf s (fuel + 1) 0 n with
        | none => none
        | some (i, n1) =>
          let step (intensity1 : Nat) (t1 : tty) : Option (tty × Nat) :=
            let t2 := { t1 with vga_color := v.vga_entry_color t1.vga_fg t1.vga_bg }
            set_mode_loop v s fuel (if t.tty_buf (s + n1) = 59 then n1 + 1 else n1) intensity1 t2
          if i = 0 then step v.VGA_NORMAL t
          else if i = 1 then step v.VGA_BOLD t
          else if 30 ≤ i ∧ i ≤ 37 then
            step intensity { t with vga_fg := ((i - 30) ||| intensity) % 256 }
          else if 40 ≤ i ∧ i ≤ 47 then
            step intensity { t with vga_bg := ((i - 40) ||| intensity) % 256 }
          else some (t, 0)
    else some (t, n)

/-- The function `set_mode` on the buffer from index `s`. -/
def set_mode (v : vga_h) (fuel : Nat) (s : Nat) (t : tty) : Option (tty × Nat) :=
  set_mode_loop v s fuel 0 v.VGA_NORMAL t

/-- The function `process_ansi_esc` for the escape character at index `s`. -/
def process_ansi_esc (v : vga_h) (fuel : Nat) (s : Nat) (t : tty) : Option (tty × Nat) :=
  if t.tty_buf (s + 1) ≠ 91 then some (t, 0)
  else
    match get_ansi_command t.tty_buf fuel (s + 2) with
    | none => none
    | some cmd =>
      if cmd = 109 then
        match set_mode v fuel (s + 2) t with
        | none => none
        | some (t1, k) =>
          if (2 + k) % SIZE_MAX_PLUS_1 = 2 then some (t1, 0)
          else some (t1, (2 + k) % SIZE_MAX_PLUS_1)
      else some (t, 2)

/-- The tab loop of `tty_flush`:
`while ((++vga_col) % TTY_TAB_STOP != 0) if (vga_col == VGA_WIDTH) tty_nextrow();` -/
def tty_tab (v : vga_h) : Nat → tty → Option tty
  | fuel, t =>
    let t1 := { t with vga_col := (t.vga_col + 1) % SIZE_MAX_PLUS_1 }
    if t1.vga_col % TTY_TAB_STOP ≠ 0 then
      match fuel with
      | 0 => none
      | fuel + 1 => tty_tab v fuel (if t1.vga_col = VGA_WIDTH then tty_nextrow v t1 else t1)
    else some t1

/-- The tail of an iteration of the `for` loop of `tty_flush` that printed a
character: `if (++vga_col == VGA_WIDTH) tty_nextrow();` -/
def tty_advance (v : vga_h) (t : tty) : tty :=
  let t1 := { t with vga_col := (t.vga_col + 1) % SIZE_MAX_PLUS_1 }
  if t1.vga_col = VGA_WIDTH then tty_nextrow v t1 else t1

/-- The `for` loop of `tty_flush` from index `s`; `count` bounds the number
of iterations, `fuel` the loops inside an iteration. -/
def tty_flush_loop (v : vga_h) (fuel : Nat) : Nat → Nat → tty → Option tty
  | count, s, t =>
    if s < t.tty_pos then
      match count with
      | 0 => none
      | count + 1 =>
        if t.tty_buf s = 10 then tty_flush_loop v fuel count (s + 1) (tty_nextrow v t)
        else if t.tty_buf s = 9 then
          match tty_tab v fuel t with
          | none => none
          | some t1 => tty_flush_loop v fuel count (s + 1) t1
        else if t.tty_buf s = ASCII_ESC then
          match process_ansi_esc v fuel s t with
          | none => none
          | some (t1, n) =>
            if n = 0 then
              tty_flush_loop v fuel count (s + 1)
                (tty_advance v
                  (tty_put v (char_to_int (t1.tty_buf s)) t1.vga_color t1.vga_col t1.vga_row t1))
            else tty_flush_loop v fuel count (s + n + 1) t1
        else
          tty_flush_loop v fuel count (s + 1)
            (tty_advance v
              (tty_put v (char_to_int (t.tty_buf s)) t.vga_color t.vga_col t.vga_row t))
    else some { t with tty_pos := 0 }

/-- The function `tty_flush`. Every iteration advances `s` by at least one,
so `tty_pos` iterations suffice. -/
def tty_flush (v : vga_h) (fuel : Nat) (t : tty) : Option tty :=
  tty_flush_loop v fuel t.tty_pos 0 t

/-- The function `tty_putchar`. -/
def tty_putchar (v : vga_h) (fuel : Nat) (c : Int) (t : tty) : Option tty :=
  match (if t.tty_pos = TTY_BUFSIZE then tty_flush v fuel t else some t) with
  | none => none
  | some t1 =>
    let t2 := { t1 with
      tty_buf := fun i => if i = t1.tty_pos then (c % 256).toNat else t1.tty_buf i,
      tty_pos := t1.tty_pos + 1 }
    if c = 10 then tty_flush v fuel t2 else some t2

/-- The function `tty_write`, `data` being the `size` bytes written. -/
def tty_write (v : vga_h) (fuel : Nat) : List Nat → tty → Option tty
  | [], t => some t
  | b :: data, t =>
    match tty_putchar v fuel (char_to_int b) t with
    | none => none
    | some t1 => tty_write v fuel data t1

/-- A call of the tty interface. -/
inductive tty_call where
  | putchar (c : Int)
  | write (data : List Nat)
  | flush

/-- Run a sequence of calls. -/
def tty_calls (v : vga_h) (fuel : Nat) : List tty_call → tty → Option tty
  | [], t => some t
  | .putchar c :: cs, t =>
    match tty_putchar v fuel c t with
    | none => none
    | some t1 => tty_calls v fuel cs t1
  | .write data :: cs, t =>
    match tty_write v fuel data t with
    | none => none
    | some t1 => tty_calls v fuel cs t1
  | .flush :: cs, t =>
    match tty_flush v fuel t with
    | none => none
    | some t1 => tty_calls v fuel cs t1

/-! ## Instruments for stating properties of escape sequences -/

/-- The number a digit string denotes on top of the digits already read,
most significant digit first. -/
def digits_value (a : Nat) : List (Fin 10) → Nat
  | [] => a
  | d :: ds => digits_value (10 * a + d.val) ds

/-- The number the `size_t` accumulator `i` of `set_mode` holds after the
digit string: every step is reduced modulo 2^32. -/
def digits_word (a : Nat) : List (Fin 10) → Nat
  | [] => a
  | d :: ds => digits_word ((10 * a + d.val) % SIZE_MAX_PLUS_1) ds

/-- The decimal value of a parameter, given by its digits. -/
def param_value (p : List (Fin 10)) : Nat := digits_value 0 p

/-- The characters of a parameter. -/
def param_bytes (p : List (Fin 10)) : List Nat := p.map (fun d => 48 + d.val)

/-- The characters of a parameter list: the parameters separated by `;`. -/
def params_bytes : List (List (Fin 10)) → List Nat
  | [] => []
  | [p] => param_bytes p
  | p :: q :: ps => param_bytes p ++ 59 :: params_bytes (q :: ps)

/-- The graphics modes `set_mode` knows: 0, 1, 30 to 37 and 40 to 47. -/
def sgr_mode (i : Nat) : Prop := i = 0 ∨ i = 1 ∨ (30 ≤ i ∧ i ≤ 37) ∨ (40 ≤ i ∧ i ≤ 47)

instance sgr_mode_decidable (i : Nat) : Decidable (sgr_mode i) :=
  inferInstanceAs (Decidable (i = 0 ∨ i = 1 ∨ (30 ≤ i ∧ i ≤ 37) ∨ (40 ≤ i ∧ i ≤ 47)))

/-- The buffer holds the bytes `bs` from index `s` on. -/
def holds (buf : Nat → Nat) : Nat → List Nat → Prop
  | _, [] => True
  | s, b :: bs => buf s = b ∧ holds buf (s + 1) bs

instance holds_decidable (buf : Nat → Nat) :
    (s : Nat) → (bs : List Nat) → Decidable (holds buf s bs)
  | _, [] => isTrue trivial
  | s, b :: bs =>
    match Nat.decEq (buf s) b, holds_decidable buf (s + 1) bs with
    | isTrue h1, isTrue h2 => isTrue ⟨h1, h2⟩
    | isFalse h1, _ => isFalse (fun h => h1 h.1)
    | _, isFalse h2 => isFalse (fun h => h2 h.2)

/-- The state `t` with the three colour variables replaced; everything else,
the cursor, the screen and the buffer, is as in `t`. -/
def recolor (t : tty) (fg bg color : Nat) : tty :=
  { t with vga_fg := fg, vga_bg := bg, vga_color := color }

/-- The bytes of `ESC [ 3 1 ; 1 m A`. -/
def esc_red_bold : List Nat := [27, 91, 51, 49, 59, 49, 109, 65]

/-- The bytes of `ESC [ 9 9 m A`: the parameter 99 is no known mode. -/
def esc_unknown_mode : List Nat := [27, 91, 57, 57, 109, 65]

/-- The bytes of `ESC [ 4 2 9 4 9 6 7 2 9 6 m`: the parameter is 2^32. -/
def esc_overflow : List Nat := [27, 91, 52, 50, 57, 52, 57, 54, 55, 50, 57, 54, 109]

/-- The state after `tty_init` in which the buffer holds `bs` and `tty_pos`
stands behind them, as after writing `bs` (which contain no newline). -/
def tty_buffered (bs : List Nat) : tty :=
  { tty_init standard_vga tty_boot with tty_buf := mem_of bs, tty_pos := bs.length }

/-! ## Theorems -/

/-! ### Unfolding the walk -/

theorem madt_walk_loop_done {σ : Type} (madt : acpi_madt) (h : Mem → Nat → σ → Except σ σ)
    (fuel p : Nat) (s : σ) (hp : ¬ p < madt.length) :
    madt_walk_loop madt h fuel p s = .done () s := by
  cases fuel <;> simp [madt_walk_loop, hp]

theorem madt_walk_loop_zero {σ : Type} (madt : acpi_madt) (h : Mem → Nat → σ → Except σ σ)
    (p : Nat) (s : σ) (hp : p < madt.length) :
    madt_walk_loop madt h 0 p s = .timeout s := by
  simp [madt_walk_loop, hp]

theorem madt_walk_loop_succ {σ : Type} (madt : acpi_madt) (h : Mem → Nat → σ → Except σ σ)
    (fuel p : Nat) (s : σ) (hp : p < madt.length) :
    madt_walk_loop madt h (fuel + 1) p s =
      match h madt.bytes p s with
      | .error s1 => .fault s1
      | .ok s1 => madt_walk_loop madt h fuel (p + hdr_length madt.bytes p) s1 := by
  simp [madt_walk_loop, hp]

theorem chain_le (m : Mem) (rs : List Nat) : ∀ p q : Nat, Chain m p rs q → p ≤ q := by
  induction rs with
  | nil => intro p q hc; exact Nat.le_of_eq hc
  | cons r rs ih =>
    intro p q hc
    have := ih _ _ hc.2
    omega

/-- On a record of declared length 0 the cursor stays where it is: whatever
the fuel, the walk does not return, and it hands the record to the handler
once per unit of fuel. -/
theorem madt_walk_loop_stuck {σ : Type} (madt : acpi_madt) (h : Mem → Nat → σ → Except σ σ)
    (hnf : ∀ p s, ∃ s1, h madt.bytes p s = .ok s1)
    (z : Nat) (hz : z < madt.length) (hlen : hdr_length madt.bytes z = 0) :
    ∀ (fuel : Nat) (s : σ) (log : List Nat),
      (madt_walk_loop madt (logged h) fuel z (s, log)).returned = false ∧
      (madt_walk_loop madt (logged h) fuel z (s, log)).state.2 = log ++ List.replicate fuel z := by
  intro fuel
  induction fuel with
  | zero =>
    intro s log
    rw [madt_walk_loop_zero _ _ _ _ hz]
    simp [Outcome.returned, Outcome.state]
  | succ k ih =>
    intro s log
    obtain ⟨s1, hs1⟩ := hnf z s
    rw [madt_walk_loop_succ _ _ _ _ _ hz]
    simp only [logged, hs1, hlen, Nat.add_zero]
    refine ⟨(ih s1 (log ++ [z])).1, ?_⟩
    rw [(ih s1 (log ++ [z])).2, List.replicate_succ]
    simp

theorem madt_walk_loop_reaches_zero_length {σ : Type} (madt : acpi_madt)
    (h : Mem → Nat → σ → Except σ σ) (hnf : ∀ p s, ∃ s1, h madt.bytes p s = .ok s1)
    (z : Nat) (hz : z < madt.length) (hlen : hdr_length madt.bytes z = 0) (pre : List Nat) :
    ∀ (p : Nat), Chain madt.bytes p pre z → ∀ (s : σ) (log : List Nat),
      (∀ fuel, (madt_walk_loop madt (logged h) fuel p (s, log)).returned = false) ∧
      (∀ n, (madt_walk_loop madt (logged h) (pre.length + n) p (s, log)).state.2
          = log ++ pre ++ List.replicate n z) := by
  induction pre with
  | nil =>
    intro p hc s log
    have hpz : p = z := hc
    subst hpz
    refine ⟨fun fuel => (madt_walk_loop_stuck madt h hnf p hz hlen fuel s log).1, fun n => ?_⟩
    simpa using (madt_walk_loop_stuck madt h hnf p hz hlen n s log).2
  | cons r rs ih =>
    intro p hc s log
    obtain ⟨hr, hrest⟩ := hc
    subst hr
    have hle := chain_le _ _ _ _ hrest
    have hp : r < madt.length := by omega
    obtain ⟨s1, hs1⟩ := hnf r s
    have ih1 := ih _ hrest s1 (log ++ [r])
    constructor
    · intro fuel
      cases fuel with
      | zero => rw [madt_walk_loop_zero _ _ _ _ hp]; rfl
      | succ k =>
        rw [madt_walk_loop_succ _ _ _ _ _ hp]
        simp only [logged, hs1]
        exact ih1.1 k
    · intro n
      have hfuel : (r :: rs).length + n = (rs.length + n) + 1 := by simp; omega
      rw [hfuel, madt_walk_loop_succ _ _ _ _ _ hp]
      simp only [logged, hs1]
      rw [ih1.2 n]
      simp

/-- C1 (as the code behaves): when the walk reaches a record whose declared
length is 0, `madt_walk` does not return for any amount of fuel; the records
handed to the handler before it are exactly the records preceding it in table
order, and from then on the handler is handed the zero-length record again on
every further iteration. -/
theorem madt_walk_zero_length_never_returns {σ : Type} (madt : acpi_madt)
    (h : Mem → Nat → σ → Except σ σ) (hnf : ∀ p s, ∃ s1, h madt.bytes p s = .ok s1)
    (pre : List Nat) (z : Nat) (hpre : Chain madt.bytes sizeof_acpi_madt pre z)
    (hz : z < madt.length) (hlen : hdr_length madt.bytes z = 0) (s : σ) :
    (∀ fuel, (madt_walk madt (logged h) fuel (s, [])).returned = false) ∧
    (∀ n, (madt_walk madt (logged h) (pre.length + n) (s, [])).state.2
        = pre ++ List.replicate n z) := by
  have := madt_walk_loop_reaches_zero_length madt h hnf z hz hlen pre _ hpre s []
  simpa [madt_walk] using this

/-- C1 witness: in `zero_length_table` the record at offset 44 precedes the
zero-length record at offset 52. -/
theorem madt_walk_zero_length_never_returns_witness :
    (∀ fuel, (madt_walk zero_length_table (logged idle) fuel ((), [])).returned = false) ∧
    (∀ n, (madt_walk zero_length_table (logged idle) ([44].length + n) ((), [])).state.2
        = [44] ++ List.replicate n 52) :=
  madt_walk_zero_length_never_returns zero_length_table idle (fun _ s => ⟨s, rfl⟩)
    [44] 52 ⟨rfl, rfl⟩ (by decide) (by decide) ()

/-- C1 counterexample: `zero_length_table` contains a record of declared
length 0 inside the region, yet the walk returns for no amount of fuel, and
with fuel for three handler calls it has delivered the zero-length record
twice instead of stopping at it. -/
theorem madt_walk_zero_length_counterexample :
    hdr_length zero_length_table.bytes 52 = 0 ∧ 52 < zero_length_table.length ∧
    (¬ ∃ fuel, (madt_walk zero_length_table (logged idle) fuel ((), [])).returned = true) ∧
    (madt_walk zero_length_table (logged idle) 3 ((), [])).state.2 = [44, 52, 52] := by
  refine ⟨by decide, by decide, ?_, by decide⟩
  rintro ⟨fuel, hfuel⟩
  have h := (madt_walk_loop_reaches_zero_length zero_length_table (idle : Mem → Nat → Unit → _)
    (fun _ s => ⟨s, rfl⟩) 52 (by decide) (by decide) [44] sizeof_acpi_madt ⟨rfl, rfl⟩ () []).1 fuel
  rw [madt_walk, h] at hfuel
  exact Bool.noConfusion hfuel

/-! ### C2: what the walk checks before handing a record over -/

theorem madt_walk_loop_delivered {σ : Type} (madt : acpi_madt) (h : Mem → Nat → σ → Except σ σ) :
    ∀ (fuel p : Nat) (s : σ) (log : List Nat) (q : Nat),
      q ∈ (madt_walk_loop madt (logged h) fuel p (s, log)).state.2 →
      q ∈ log ∨ (p ≤ q ∧ q < madt.length) := by
  intro fuel
  induction fuel with
  | zero =>
    intro p s log q hq
    by_cases hp : p < madt.length
    · rw [madt_walk_loop_zero _ _ _ _ hp] at hq; exact Or.inl hq
    · rw [madt_walk_loop_done _ _ _ _ _ hp] at hq; exact Or.inl hq
  | succ k ih =>
    intro p s log q hq
    by_cases hp : p < madt.length
    · rw [madt_walk_loop_succ _ _ _ _ _ hp] at hq
      simp only [logged] at hq
      cases hh : h madt.bytes p s with
      | error s1 =>
        simp only [hh, Outcome.state, List.mem_append, List.mem_singleton] at hq
        rcases hq with hq | hq
        · exact Or.inl hq
        · exact Or.inr ⟨by omega, by omega⟩
      | ok s1 =>
        simp only [hh] at hq
        rcases ih _ _ _ _ hq with h1 | h1
        · simp only [List.mem_append, List.mem_singleton] at h1
          rcases h1 with h1 | h1
          · exact Or.inl h1
          · exact Or.inr ⟨by omega, by omega⟩
        · exact Or.inr ⟨by omega, h1.2⟩
    · rw [madt_walk_loop_done _ _ _ _ _ hp] at hq; exact Or.inl hq

/-- C2 (as the code behaves): for every table and handler, every record
`madt_walk` hands to the handler starts inside the region, at an offset from
the end of the fixed header up to, but excluding, `header.length`; this is the
only bound the walk checks (neither the record's second prefix byte nor its
declared length is compared with the end). -/
theorem madt_walk_delivers_only_starts_inside {σ : Type} (madt : acpi_madt)
    (h : Mem → Nat → σ → Except σ σ) (fuel : Nat) (s : σ) (q : Nat)
    (hq : q ∈ (madt_walk madt (logged h) fuel (s, [])).state.2) :
    sizeof_acpi_madt ≤ q ∧ q < madt.length := by
  rcases madt_walk_loop_delivered madt h fuel sizeof_acpi_madt s [] q hq with h1 | h1
  · exact absurd h1 (List.not_mem_nil q)
  · exact h1

/-- C2 witness: the record handed over in `overrun_table` starts at offset 44. -/
theorem madt_walk_delivers_only_starts_inside_witness :
    44 ∈ (madt_walk overrun_table (logged madt_parse_ioapics) 1 (⟨0, []⟩, [])).state.2 ∧
    (sizeof_acpi_madt ≤ 44 ∧ 44 < overrun_table.length) :=
  ⟨by decide, madt_walk_delivers_only_starts_inside overrun_table madt_parse_ioapics 1 ⟨0, []⟩ 44
    (by decide)⟩

/-- C2 counterexample: `overrun_table` ends at offset 46, the record at
offset 44 declares 12 bytes and so would end at offset 56; the walk hands it
to the handler all the same, and pass 1 registers a controller from the ten
bytes that lie behind the table. -/
theorem madt_walk_delivers_overrunning_record :
    overrun_table.length = 46 ∧ 44 + hdr_length overrun_table.bytes 44 = 56 ∧
    madt_walk overrun_table (logged madt_parse_ioapics) 1 (⟨0, []⟩, []) =
      .done () (⟨0, [.ioapic_add 7 0xFEC00000 24,
                     .klog .KLOG_INFO (.io_apic 7 0xFEC00000 24)]⟩, [44]) := by
  decide

/-! ### C3: pass 1 on a well-formed table -/

theorem emit_nil (w : World) : w.emit [] = w := by
  simp [World.emit]

theorem emit_emit (w : World) (a b : List Event) : (w.emit a).emit b = w.emit (a ++ b) := by
  simp [World.emit]

theorem madt_parse_ioapics_eq (m : Mem) (r : Nat) (w : World) :
    madt_parse_ioapics m r w = .ok (w.emit (pass1_events m [r])) := by
  unfold madt_parse_ioapics pass1_events
  by_cases ht : hdr_type m r = ACPI_MADT_IO_APIC
  · simp [ht, __madt_ioapic, pass1_events]
  · simp [ht, pass1_events, emit_nil]

theorem pass1_events_cons (m : Mem) (r : Nat) (rs : List Nat) :
    pass1_events m (r :: rs) = pass1_events m [r] ++ pass1_events m rs := by
  simp [pass1_events]

theorem tiles_lt (m : Mem) (rs : List Nat) :
    ∀ p q : Nat, Tiles m p rs q → p ≤ q ∧ (rs ≠ [] → p < q) := by
  induction rs with
  | nil => intro p q hc; exact ⟨Nat.le_of_eq hc, fun hne => absurd rfl hne⟩
  | cons r rs ih =>
    intro p q hc
    have := (ih _ _ hc.2.2).1
    have := hc.2.1
    exact ⟨by omega, fun _ => by omega⟩

theorem madt_walk_loop_pass1 (madt : acpi_madt) (rs : List Nat) :
    ∀ (p : Nat), Tiles madt.bytes p rs madt.length → ∀ (fuel : Nat), rs.length ≤ fuel →
      ∀ (w : World), madt_walk_loop madt madt_parse_ioapics fuel p w
        = .done () (w.emit (pass1_events madt.bytes rs)) := by
  induction rs with
  | nil =>
    intro p ht fuel _ w
    have hp : ¬ p < madt.length := by
      have : p = madt.length := ht
      omega
    rw [madt_walk_loop_done _ _ _ _ _ hp]
    simp [pass1_events, emit_nil]
  | cons r rs ih =>
    intro p ht fuel hfuel w
    obtain ⟨hr, hpos, hrest⟩ := ht
    subst hr
    have hp : r < madt.length := by
      have := (tiles_lt _ _ _ _ hrest).1
      omega
    obtain ⟨k, rfl⟩ : ∃ k, fuel = k + 1 := ⟨fuel - 1, by simp at hfuel; omega⟩
    rw [madt_walk_loop_succ _ _ _ _ _ hp, madt_parse_ioapics_eq]
    simp only []
    rw [ih _ hrest k (by simp at hfuel; omega), emit_emit, ← pass1_events_cons]

theorem registrations_pass1_events (m : Mem) (rs : List Nat) :
    registrations (pass1_events m rs) =
      (rs.filter (fun r => decide (hdr_type m r = ACPI_MADT_IO_APIC))).map
        (fun r => (io_apic_id m r, io_apic_address m r, io_apic_global_irq_base m r)) := by
  induction rs with
  | nil => simp [pass1_events, registrations]
  | cons r rs ih =>
    by_cases ht : hdr_type m r = ACPI_MADT_IO_APIC
    · simp [pass1_events, registrations, ht, ih]
    · simp [pass1_events, registrations, ht, ih]

theorem pass1_events_no_configuration (m : Mem) (rs : List Nat) :
    ∀ e ∈ pass1_events m rs, e.isConfiguration = false := by
  induction rs with
  | nil => intro e he; simp [pass1_events] at he
  | cons r rs ih =>
    intro e he
    rw [pass1_events_cons, List.mem_append] at he
    rcases he with he | he
    · by_cases ht : hdr_type m r = ACPI_MADT_IO_APIC
      · simp [pass1_events, ht] at he
        rcases he with he | he <;> subst he <;> rfl
      · simp [pass1_events, ht] at he
    · exact ih e he

/-- C3: on a well-formed table (the records at `rs` have positive lengths and
tile the region from the end of the fixed header exactly to `header.length`),
pass 1 returns, having issued for each I/O-APIC record, in table order, one
`ioapic_add` with the record's `id`, `address` and `global_irq_base` (followed
by its log line) and nothing for any other record; its registrations are the
fields of the I/O-APIC records in table order, it issues no configuration
call, and a table of I/O-APIC records only yields as many registrations as it
has records. -/
theorem pass1_registers_each_io_apic (madt : acpi_madt) (rs : List Nat)
    (htiles : Tiles madt.bytes sizeof_acpi_madt rs madt.length)
    (fuel : Nat) (hfuel : rs.length ≤ fuel) (w : World) :
    madt_walk madt madt_parse_ioapics fuel w
      = .done () (w.emit (pass1_events madt.bytes rs)) ∧
    registrations (pass1_events madt.bytes rs) =
      (rs.filter (fun r => decide (hdr_type madt.bytes r = ACPI_MADT_IO_APIC))).map
        (fun r => (io_apic_id madt.bytes r, io_apic_address madt.bytes r,
          io_apic_global_irq_base madt.bytes r)) ∧
    (∀ e ∈ pass1_events madt.bytes rs, e.isConfiguration = false) ∧
    ((∀ r ∈ rs, hdr_type madt.bytes r = ACPI_MADT_IO_APIC) →
      (registrations (pass1_events madt.bytes rs)).length = rs.length) := by
  refine ⟨madt_walk_loop_pass1 madt rs _ htiles fuel hfuel w,
    registrations_pass1_events _ _, pass1_events_no_configuration _ _, fun hall => ?_⟩
  rw [registrations_pass1_events, List.length_map, List.filter_eq_self.mpr]
  intro r hr
  simpa using hall r hr

/-- C3 witness: `scenario_table` is well formed with records at offsets 44,
56 and 64, and pass 1 registers its one I/O APIC with the fields supplied. -/
theorem pass1_registers_each_io_apic_witness :
    Tiles scenario_table.bytes sizeof_acpi_madt [44, 56, 64] scenario_table.length ∧
    madt_walk scenario_table madt_parse_ioapics 3 ⟨0, []⟩
      = .done () ⟨0, [.ioapic_add 0 0xFEC00000 0, .klog .KLOG_INFO (.io_apic 0 0xFEC00000 0)]⟩ ∧
    registrations (pass1_events scenario_table.bytes [44, 56, 64]) = [(0, 0xFEC00000, 0)] :=
  have ht : Tiles scenario_table.bytes sizeof_acpi_madt [44, 56, 64] scenario_table.length :=
    ⟨rfl, by decide, rfl, by decide, rfl, by decide, rfl⟩
  have h := pass1_registers_each_io_apic scenario_table [44, 56, 64] ht 3 (by decide) ⟨0, []⟩
  ⟨ht, h.1.trans (by decide), h.2.1.trans (by decide)⟩

/-! ### C4 to C7: the override handler -/

theorem read8_lt (m : Mem) (a : Nat) : read8 m a < 256 :=
  Nat.mod_lt _ (by decide)

theorem read16_lt (m : Mem) (a : Nat) : read16 m a < 65536 := by
  have h0 := read8_lt m a
  have h1 := read8_lt m (a + 1)
  unfold read16
  omega

theorem read32_lt (m : Mem) (a : Nat) : read32 m a < 4294967296 := by
  have h0 := read8_lt m a
  have h1 := read8_lt m (a + 1)
  have h2 := read8_lt m (a + 2)
  have h3 := read8_lt m (a + 3)
  unfold read32
  omega

theorem sub32_exact (a b : Nat) (ha : a < 4294967296) (hb : b ≤ a) : sub32 a b = a - b := by
  unfold sub32
  rw [Nat.mod_eq_of_lt ha, Nat.mod_eq_of_lt (Nat.lt_of_le_of_lt hb ha)]
  omega

/-- What `__madt_override` does once the lookup has returned a controller. -/
theorem madt_override_found (L : Lookup) (m : Mem) (s : Nat) (w : World) (io : ioapic)
    (h : L w.trace (override_irq_source m s) = some io) :
    __madt_override L m s w =
      .ok (w.emit
        [.ioapic_set_vector io (sub32 (override_global_irq m s) io.irq_base)
           (override_irq_source m s),
         .ioapic_set_polarity io (sub32 (override_global_irq m s) io.irq_base)
           (override_flags m s &&& ACPI_MADT_INTI_POLARITY_MASK),
         .ioapic_set_trigger_mode io (sub32 (override_global_irq m s) io.irq_base)
           (override_flags m s &&& ACPI_MADT_INTI_TRIGGER_MODE_MASK),
         .klog .KLOG_INFO (.irq_override (override_bus_source m s) (override_irq_source m s)
           io.id (sub32 (override_global_irq m s) io.irq_base))]) := by
  simp [__madt_override, h]

/-- What `__madt_override` does when the lookup returns the null pointer. -/
theorem madt_override_not_found (L : Lookup) (m : Mem) (s : Nat) (w : World)
    (h : L w.trace (override_irq_source m s) = none) :
    __madt_override L m s w =
      .error (w.emit [.klog .KLOG_ERROR (.ignoring_override (override_irq_source m s))]) := by
  simp [__madt_override, h]

/-- C4 (as the code behaves): the controller `__madt_override` configures is
the one `ioapic_from_vector` returns for the record's legacy IRQ number
(`irq_source`): when that lookup returns a controller, the handler returns and
its three configuration calls are all issued on that controller; the target
global interrupt number is not what the controller is looked up by. -/
theorem override_configures_lookup_of_irq_source (L : Lookup) (m : Mem) (s : Nat) (w : World)
    (io : ioapic) (h : L w.trace (override_irq_source m s) = some io) :
    ∃ es, __madt_override L m s w = .ok (w.emit es) ∧
      (es.filter Event.isConfiguration).map Event.controller = [some io, some io, some io] := by
  refine ⟨_, madt_override_found L m s w io h, ?_⟩
  simp [Event.isConfiguration, Event.controller]

/-- C4 witness: with controllers 0 (from interrupt 0) and 1 (from interrupt
24) registered, the override of IRQ 5 to global interrupt 30 is applied to
controller 0, the one that owns interrupt 5. -/
theorem override_configures_lookup_of_irq_source_witness :
    registry_lookup 24 two_controllers.trace (override_irq_source override_5_to_30 0)
      = some ⟨0, 0⟩ ∧
    ∃ es, __madt_override (registry_lookup 24) override_5_to_30 0 two_controllers
        = .ok (two_controllers.emit es) ∧
      (es.filter Event.isConfiguration).map Event.controller
        = [some ⟨0, 0⟩, some ⟨0, 0⟩, some ⟨0, 0⟩] :=
  ⟨by decide, override_configures_lookup_of_irq_source (registry_lookup 24) override_5_to_30 0
    two_controllers ⟨0, 0⟩ (by decide)⟩

/-- C4 counterexample: with controllers 0 (interrupts 0 to 23) and 1
(interrupts 24 to 47) registered, the record overrides IRQ 5 to global
interrupt 30; looking up the target global interrupt number gives controller
1, but the calls are issued on controller 0, which owns the legacy IRQ
number. -/
theorem override_configures_other_controller :
    override_irq_source override_5_to_30 0 = 5 ∧ override_global_irq override_5_to_30 0 = 30 ∧
    registry_lookup 24 two_controllers.trace 30 = some ⟨1, 24⟩ ∧
    __madt_override (registry_lookup 24) override_5_to_30 0 two_controllers =
      .ok (two_controllers.emit
        [.ioapic_set_vector ⟨0, 0⟩ 30 5, .ioapic_set_polarity ⟨0, 0⟩ 30 0,
         .ioapic_set_trigger_mode ⟨0, 0⟩ 30 0, .klog .KLOG_INFO (.irq_override 0 5 0 30)]) :=
  ⟨by decide, by decide, by decide, by rfl⟩

/-- C5 (the code at the failing input): `unresolved_table` holds an override
of IRQ 9 for which no controller is registered, followed by a Local-APIC
record. The handler logs the error naming IRQ 9 and then, instead of
abandoning the directive, dereferences the null pointer: the run ends in a
fault inside pass 2, and the Local-APIC record behind the override is never
reported. -/
theorem override_unresolved_faults :
    registry_lookup 24 [] 9 = none ∧
    acpi_parse_madt (some unresolved_table) (registry_lookup 24) 8 ⟨0, []⟩ =
      .fault ⟨0xFEE00000, [.klog .KLOG_INFO (.local_apic 0xFEE00000),
                           .klog .KLOG_ERROR (.ignoring_override 9)]⟩ := by
  decide

/-- C6: when the lookup returns a controller whose `irq_base` is at most the
record's `global_irq`, `__madt_override` returns having issued exactly three
configuration calls, in the order set-vector, set-polarity, set-trigger-mode,
all on that controller and on pin `global_irq - irq_base`, the vector being
the record's legacy IRQ number `irq_source`; its log line follows. -/
theorem override_pin_vector_and_order (L : Lookup) (m : Mem) (s : Nat) (w : World) (io : ioapic)
    (h : L w.trace (override_irq_source m s) = some io)
    (hbase : io.irq_base ≤ override_global_irq m s) :
    __madt_override L m s w =
      .ok (w.emit
        [.ioapic_set_vector io (override_global_irq m s - io.irq_base) (override_irq_source m s),
         .ioapic_set_polarity io (override_global_irq m s - io.irq_base)
           (override_flags m s &&& ACPI_MADT_INTI_POLARITY_MASK),
         .ioapic_set_trigger_mode io (override_global_irq m s - io.irq_base)
           (override_flags m s &&& ACPI_MADT_INTI_TRIGGER_MODE_MASK),
         .klog .KLOG_INFO (.irq_override (override_bus_source m s) (override_irq_source m s)
           io.id (override_global_irq m s - io.irq_base))]) := by
  have hpin : sub32 (override_global_irq m s) io.irq_base
      = override_global_irq m s - io.irq_base :=
    sub32_exact _ _ (read32_lt m (s + 4)) hbase
  rw [madt_override_found L m s w io h, hpin]

/-- C6 witness: the concrete scenario. One I/O APIC (id 0, irq_base 0) is
registered; the override of IRQ 9 to global interrupt 9 at offset 64 of
`scenario_table` gives set_vector(entry 0, pin 9, vector 9), then polarity,
then trigger mode, on pin 9. -/
theorem override_pin_vector_and_order_witness :
    __madt_override (registry_lookup 24) scenario_table.bytes 64
        ⟨0, [.ioapic_add 0 0xFEC00000 0]⟩ =
      .ok ⟨0, [.ioapic_add 0 0xFEC00000 0,
               .ioapic_set_vector ⟨0, 0⟩ 9 9, .ioapic_set_polarity ⟨0, 0⟩ 9 3,
               .ioapic_set_trigger_mode ⟨0, 0⟩ 9 12,
               .klog .KLOG_INFO (.irq_override 0 9 0 9)]⟩ :=
  (override_pin_vector_and_order (registry_lookup 24) scenario_table.bytes 64
    ⟨0, [.ioapic_add 0 0xFEC00000 0]⟩ ⟨0, 0⟩ (by decide) (by decide)).trans (by rfl)

theorem land_polarity_mask (f : Nat) : f &&& 0b0011 = f % 4 :=
  Nat.and_pow_two_sub_one_eq_mod f 2

theorem land_trigger_mode_mask (f : Nat) : f &&& 0b1100 = 4 * (f / 4 % 4) := by
  have h15 : f &&& 15 = f % 16 := Nat.and_pow_two_sub_one_eq_mod f 4
  have h : f &&& 12 = (f &&& 15) &&& 12 := by
    rw [Nat.land_assoc]
    rfl
  have hdiv : f / 4 % 4 = f % 16 / 4 := by omega
  rw [h, h15, hdiv]
  have hlt : f % 16 < 16 := Nat.mod_lt _ (by decide)
  generalize f % 16 = r at hlt
  interval_cases r <;> rfl

/-- C7: for every flags value `f` of an override record (a 16-bit field)
whose controller lookup succeeds, the polarity handed to
`ioapic_set_polarity` is `f AND 0b0011` and the trigger mode handed to
`ioapic_set_trigger_mode` is `f AND 0b1100`. The first is the low two bits of
`f` as a number (`f mod 4`), the second is four times the next two bits
(`4 * (f / 4 mod 4)`): bits 4 to 15 influence neither, and each selector takes
four distinct values, one per state of its two-bit field (0 for bus
default). -/
theorem override_flags_decoding (L : Lookup) (m : Mem) (s : Nat) (w : World) (io : ioapic)
    (h : L w.trace (override_irq_source m s) = some io) :
    (∃ pin, __madt_override L m s w =
      .ok (w.emit
        [.ioapic_set_vector io pin (override_irq_source m s),
         .ioapic_set_polarity io pin (override_flags m s &&& 0b0011),
         .ioapic_set_trigger_mode io pin (override_flags m s &&& 0b1100),
         .klog .KLOG_INFO (.irq_override (override_bus_source m s) (override_irq_source m s)
           io.id pin)])) ∧
    override_flags m s < 65536 ∧
    override_flags m s &&& 0b0011 = override_flags m s % 4 ∧
    override_flags m s &&& 0b1100 = 4 * (override_flags m s / 4 % 4) :=
  ⟨⟨sub32 (override_global_irq m s) io.irq_base, madt_override_found L m s w io h⟩,
    read16_lt m (s + 8), land_polarity_mask _, land_trigger_mode_mask _⟩

/-- C7 witness: the override record of `scenario_table` carries flags 0b1111
(active low, level triggered); the polarity handed over is 0b11 and the
trigger mode 0b1100. -/
theorem override_flags_decoding_witness :
    override_flags scenario_table.bytes 64 = 0b1111 ∧
    __madt_override (registry_lookup 24) scenario_table.bytes 64
        ⟨0, [.ioapic_add 0 0xFEC00000 0]⟩ =
      .ok ⟨0, [.ioapic_add 0 0xFEC00000 0,
               .ioapic_set_vector ⟨0, 0⟩ 9 9, .ioapic_set_polarity ⟨0, 0⟩ 9 0b11,
               .ioapic_set_trigger_mode ⟨0, 0⟩ 9 0b1100,
               .klog .KLOG_INFO (.irq_override 0 9 0 9)]⟩ ∧
    override_flags scenario_table.bytes 64 &&& 0b0011
      = override_flags scenario_table.bytes 64 % 4 ∧
    override_flags scenario_table.bytes 64 &&& 0b1100
      = 4 * (override_flags scenario_table.bytes 64 / 4 % 4) :=
  have h := override_flags_decoding (registry_lookup 24) scenario_table.bytes 64
    ⟨0, [.ioapic_add 0 0xFEC00000 0]⟩ ⟨0, 0⟩ (by decide)
  ⟨by decide, by rfl, h.2.2.1, h.2.2.2⟩

/-! ### C8: the two passes -/

/-- A walk whose handler only ever appends events satisfying `P` only appends
events satisfying `P`. -/
theorem madt_walk_loop_emits (madt : acpi_madt) (h : Mem → Nat → World → Except World World)
    (P : Event → Prop)
    (hh : ∀ p w, ∃ t, (∀ e ∈ t, P e) ∧
      (h madt.bytes p w = .ok (w.emit t) ∨ h madt.bytes p w = .error (w.emit t))) :
    ∀ (fuel p : Nat) (w : World), ∃ t, (∀ e ∈ t, P e) ∧
      (madt_walk_loop madt h fuel p w).state = w.emit t := by
  intro fuel
  induction fuel with
  | zero =>
    intro p w
    refine ⟨[], fun e he => absurd he (List.not_mem_nil e), ?_⟩
    by_cases hp : p < madt.length
    · rw [madt_walk_loop_zero _ _ _ _ hp, emit_nil]; rfl
    · rw [madt_walk_loop_done _ _ _ _ _ hp, emit_nil]; rfl
  | succ k ih =>
    intro p w
    by_cases hp : p < madt.length
    · rw [madt_walk_loop_succ _ _ _ _ _ hp]
      obtain ⟨t, ht, hcase⟩ := hh p w
      rcases hcase with hok | herr
      · obtain ⟨t2, ht2, hst⟩ := ih (p + hdr_length madt.bytes p) (w.emit t)
        refine ⟨t ++ t2, ?_, ?_⟩
        · intro e he
          rcases List.mem_append.mp he with he | he
          · exact ht e he
          · exact ht2 e he
        · simp only [hok]
          rw [hst, emit_emit]
      · refine ⟨t, ht, ?_⟩
        simp only [herr]
        rfl
    · refine ⟨[], fun e he => absurd he (List.not_mem_nil e), ?_⟩
      rw [madt_walk_loop_done _ _ _ _ _ hp, emit_nil]; rfl

theorem madt_parse_ioapics_emits (m : Mem) (p : Nat) (w : World) :
    ∃ t, (∀ e ∈ t, Event.isConfiguration e = false) ∧
      (madt_parse_ioapics m p w = .ok (w.emit t) ∨ madt_parse_ioapics m p w = .error (w.emit t)) :=
  ⟨pass1_events m [p], pass1_events_no_configuration m [p], Or.inl (madt_parse_ioapics_eq m p w)⟩

theorem madt_parse_all_emits (L : Lookup) (m : Mem) (p : Nat) (w : World) :
    ∃ t, (∀ e ∈ t, Event.isRegistration e = false) ∧
      (madt_parse_all L m p w = .ok (w.emit t) ∨ madt_parse_all L m p w = .error (w.emit t)) := by
  unfold madt_parse_all
  by_cases h0 : hdr_type m p = ACPI_MADT_LOCAL_APIC
  · refine ⟨_, ?_, Or.inl (by simp only [h0, if_true]; rfl)⟩
    intro e he
    simp only [List.mem_singleton] at he
    subst he
    rfl
  · by_cases h2 : hdr_type m p = ACPI_MADT_INTERRUPT_OVERRIDE
    · simp only [h0, h2, if_true, if_false]
      cases hl : L w.trace (override_irq_source m p) with
      | none =>
        refine ⟨_, ?_, Or.inr (madt_override_not_found L m p w hl)⟩
        intro e he
        simp only [List.mem_singleton] at he
        subst he
        rfl
      | some io =>
        refine ⟨_, ?_, Or.inl (madt_override_found L m p w io hl)⟩
        intro e he
        simp only [List.mem_cons, List.mem_singleton, List.not_mem_nil, or_false] at he
        rcases he with he | he | he | he <;> subst he <;> rfl
    · refine ⟨[], fun e he => absurd he (List.not_mem_nil e), Or.inl ?_⟩
      simp only [h0, h2, if_false, emit_nil]

/-- C8: for every located table, lookup, fuel and starting state, the events
of `acpi_parse_madt` after its first log line split into the events `t1` of
pass 1 followed by the events `t2` of pass 2: pass 1 issues no configuration
call, pass 2 issues no registration, and pass 2 issues anything only if pass 1
has returned. So every `ioapic_add` precedes every `ioapic_set_vector`,
`ioapic_set_polarity` and `ioapic_set_trigger_mode`, whatever the order of
the records in the table. -/
theorem acpi_parse_madt_registers_before_configuring (madt : acpi_madt) (L : Lookup)
    (fuel : Nat) (w : World) :
    ∃ t1 t2,
      (madt_walk madt madt_parse_ioapics fuel
        (World.emit { w with lapic_phys_base := madt.address }
          [.klog .KLOG_INFO (.local_apic madt.address)])).state.trace
        = w.trace ++ [.klog .KLOG_INFO (.local_apic madt.address)] ++ t1 ∧
      (acpi_parse_madt (some madt) L fuel w).state.trace
        = w.trace ++ [.klog .KLOG_INFO (.local_apic madt.address)] ++ t1 ++ t2 ∧
      (∀ e ∈ t1, Event.isConfiguration e = false) ∧
      (∀ e ∈ t2, Event.isRegistration e = false) ∧
      (t2 ≠ [] →
        (madt_walk madt madt_parse_ioapics fuel
          (World.emit { w with lapic_phys_base := madt.address }
            [.klog .KLOG_INFO (.local_apic madt.address)])).returned = true) := by
  obtain ⟨t1, ht1, hs1⟩ := madt_walk_loop_emits madt madt_parse_ioapics _
    (madt_parse_ioapics_emits madt.bytes) fuel sizeof_acpi_madt
    (World.emit { w with lapic_phys_base := madt.address }
      [.klog .KLOG_INFO (.local_apic madt.address)])
  have hs1w : (madt_walk madt madt_parse_ioapics fuel
      (World.emit { w with lapic_phys_base := madt.address }
        [.klog .KLOG_INFO (.local_apic madt.address)])).state
      = (World.emit { w with lapic_phys_base := madt.address }
        [.klog .KLOG_INFO (.local_apic madt.address)]).emit t1 := hs1
  cases hw : madt_walk madt madt_parse_ioapics fuel
      (World.emit { w with lapic_phys_base := madt.address }
        [.klog .KLOG_INFO (.local_apic madt.address)]) with
  | fault s1 =>
    rw [hw] at hs1w
    refine ⟨t1, [], ?_, ?_, ht1, fun e he => absurd he (List.not_mem_nil e),
      fun hne => absurd rfl hne⟩
    · simp only [Outcome.state] at hs1w ⊢
      rw [hs1w]
      simp [World.emit]
    · simp only [acpi_parse_madt, hw, Outcome.state] at hs1w ⊢
      rw [hs1w]
      simp [World.emit]
  | timeout s1 =>
    rw [hw] at hs1w
    refine ⟨t1, [], ?_, ?_, ht1, fun e he => absurd he (List.not_mem_nil e),
      fun hne => absurd rfl hne⟩
    · simp only [Outcome.state] at hs1w ⊢
      rw [hs1w]
      simp [World.emit]
    · simp only [acpi_parse_madt, hw, Outcome.state] at hs1w ⊢
      rw [hs1w]
      simp [World.emit]
  | done r s1 =>
    rw [hw] at hs1w
    simp only [Outcome.state] at hs1w
    obtain ⟨t2, ht2, hs2⟩ := madt_walk_loop_emits madt (madt_parse_all L) _
      (madt_parse_all_emits L madt.bytes) fuel sizeof_acpi_madt s1
    have hs2w : (madt_walk madt (madt_parse_all L) fuel s1).state = s1.emit t2 := hs2
    refine ⟨t1, t2, ?_, ?_, ht1, ht2, fun _ => rfl⟩
    · simp only [Outcome.state]
      rw [hs1w]
      simp [World.emit]
    · have hfin : (acpi_parse_madt (some madt) L fuel w).state
          = (madt_walk madt (madt_parse_all L) fuel s1).state := by
        simp only [acpi_parse_madt, hw]
        cases madt_walk madt (madt_parse_all L) fuel s1 <;> rfl
      rw [hfin, hs2w, hs1w]
      simp [World.emit]

/-- The concrete scenario, run through the whole driver: one registration,
then the Local-APIC report and the three configuration calls on pin 9. -/
theorem acpi_parse_madt_scenario :
    acpi_parse_madt (some scenario_table) (registry_lookup 24) 3 ⟨0, []⟩ =
      .done 0 ⟨0xFEE00000,
        [.klog .KLOG_INFO (.local_apic 0xFEE00000),
         .ioapic_add 0 0xFEC00000 0, .klog .KLOG_INFO (.io_apic 0 0xFEC00000 0),
         .klog .KLOG_INFO (.lapic 0 true),
         .ioapic_set_vector ⟨0, 0⟩ 9 9, .ioapic_set_polarity ⟨0, 0⟩ 9 3,
         .ioapic_set_trigger_mode ⟨0, 0⟩ 9 12,
         .klog .KLOG_INFO (.irq_override 0 9 0 9)]⟩ := by
  decide

/-- The same records with the override in front of the I/O-APIC record: the
registration still comes first, and the override finds its controller. -/
theorem acpi_parse_madt_override_first :
    acpi_parse_madt (some override_first_table) (registry_lookup 24) 2 ⟨0, []⟩ =
      .done 0 ⟨0xFEE00000,
        [.klog .KLOG_INFO (.local_apic 0xFEE00000),
         .ioapic_add 0 0xFEC00000 0, .klog .KLOG_INFO (.io_apic 0 0xFEC00000 0),
         .ioapic_set_vector ⟨0, 0⟩ 9 9, .ioapic_set_polarity ⟨0, 0⟩ 9 3,
         .ioapic_set_trigger_mode ⟨0, 0⟩ 9 12,
         .klog .KLOG_INFO (.irq_override 0 9 0 9)]⟩ := by
  decide

/-! ### C9: records pass 2 does not interpret -/

/-- C9: in pass 2 a record whose type is neither Local-APIC nor
Interrupt-Source-Override leaves the state as it is (no registration, no
configuration call, no diagnostic), and the walk goes on at the cursor
advanced by the record's declared length: a walk that starts at such a record
equals, with one unit of fuel less, the walk that starts at the record behind
it from the same state. -/
theorem pass2_skips_other_records (madt : acpi_madt) (L : Lookup) (p fuel : Nat) (w : World)
    (hlapic : hdr_type madt.bytes p ≠ ACPI_MADT_LOCAL_APIC)
    (hoverride : hdr_type madt.bytes p ≠ ACPI_MADT_INTERRUPT_OVERRIDE) :
    madt_parse_all L madt.bytes p w = .ok w ∧
    madt_walk_loop madt (madt_parse_all L) (fuel + 1) p w
      = madt_walk_loop madt (madt_parse_all L) fuel (p + hdr_length madt.bytes p) w := by
  have hskip : madt_parse_all L madt.bytes p w = .ok w := by
    simp [madt_parse_all, hlapic, hoverride]
  refine ⟨hskip, ?_⟩
  by_cases hp : p < madt.length
  · rw [madt_walk_loop_succ _ _ _ _ _ hp, hskip]
  · rw [madt_walk_loop_done _ _ _ _ _ hp, madt_walk_loop_done]
    omega

/-- C9 witness: in `forward_compat_table` the record of type 4 at offset 44
is skipped and the walk continues with the Local-APIC record at offset 50. -/
theorem pass2_skips_other_records_witness :
    hdr_type forward_compat_table.bytes 44 = 4 ∧
    madt_parse_all (registry_lookup 24) forward_compat_table.bytes 44 ⟨0, []⟩ = .ok ⟨0, []⟩ ∧
    madt_walk_loop forward_compat_table (madt_parse_all (registry_lookup 24)) (1 + 1) 44 ⟨0, []⟩
      = madt_walk_loop forward_compat_table (madt_parse_all (registry_lookup 24)) 1
          (44 + hdr_length forward_compat_table.bytes 44) ⟨0, []⟩ :=
  ⟨by decide, pass2_skips_other_records forward_compat_table (registry_lookup 24) 44 1 ⟨0, []⟩
    (by decide) (by decide)⟩

/-! ### C10: the cursor of the tty -/

/-- C10 (the code at the failing input): after `tty_init`, writing ten tabs
and flushing leaves `vga_col` at 80, which is `VGA_WIDTH`: the tab loop ends
as soon as the incremented column is a multiple of the tab stop, so its test
for the last column is never reached with column 80. With the cursor first
brought to row 24 by 24 newlines, the character written after the ten tabs is
stored by `tty_put` at cell 24 * 80 + 80 = 2000, which is
`VGA_HEIGHT * VGA_WIDTH`, and the column goes on to 81. -/
theorem tty_tab_runs_past_last_column :
    (tty_calls standard_vga 16 [.write (List.replicate 10 9), .flush]
        (tty_init standard_vga tty_boot)).map (fun t => (t.vga_row, t.vga_col, t.written))
      = some (0, 80, []) ∧
    (tty_calls standard_vga 16
        [.write (List.replicate 24 10 ++ List.replicate 10 9 ++ [65]), .flush]
        (tty_init standard_vga tty_boot)).map (fun t => (t.vga_row, t.vga_col, t.written))
      = some (24, 81, [2000]) ∧
    VGA_WIDTH = 80 ∧ VGA_HEIGHT * VGA_WIDTH = 2000 := by
  decide!

/-! ### C11: graphics-mode escape sequences -/

theorem holds_append (buf : Nat → Nat) (a b : List Nat) :
    ∀ s : Nat, holds buf s (a ++ b) ↔ holds buf s a ∧ holds buf (s + a.length) b := by
  induction a with
  | nil => intro s; simp [holds]
  | cons x xs ih =>
    intro s
    have hlen : s + 1 + xs.length = s + (x :: xs).length := by simp; omega
    show (buf s = x ∧ holds buf (s + 1) (xs ++ b)) ↔
      (buf s = x ∧ holds buf (s + 1) xs) ∧ holds buf (s + (x :: xs).length) b
    rw [ih (s + 1), hlen, and_assoc]

theorem isdigit_digit (d : Fin 10) : isdigit (48 + d.val) = true := by
  have := d.isLt
  simp [isdigit]
  omega

theorem digits_word_eq (p : List (Fin 10)) :
    ∀ a : Nat, digits_word (a % SIZE_MAX_PLUS_1) p = digits_value a p % SIZE_MAX_PLUS_1 := by
  induction p with
  | nil => intro a; rfl
  | cons d ds ih =>
    intro a
    have h : (10 * (a % SIZE_MAX_PLUS_1) + d.val) % SIZE_MAX_PLUS_1
        = (10 * a + d.val) % SIZE_MAX_PLUS_1 := by
      unfold SIZE_MAX_PLUS_1
      omega
    simp only [digits_word, digits_value]
    rw [h, ih]

theorem digits_word_zero (p : List (Fin 10)) :
    digits_word 0 p = param_value p % SIZE_MAX_PLUS_1 :=
  digits_word_eq p 0

/-- The inner loop of `set_mode` on a run of digits that ends before a
character that is no digit. -/
theorem set_mode_number_digits (buf : Nat → Nat) (s : Nat) (p : List (Fin 10)) :
    ∀ (fuel i n : Nat), p.length ≤ fuel → holds buf (s + n) (param_bytes p) →
      isdigit (buf (s + n + p.length)) = false →
      set_mode_number buf s fuel i n = some (digits_word i p, n + p.length) := by
  induction p with
  | nil =>
    intro fuel i n _ _ hend
    have hend0 : isdigit (buf (s + n)) = false := by simpa using hend
    cases fuel <;> simp [set_mode_number, hend0, digits_word]
  | cons d ds ih =>
    intro fuel i n hfuel hbuf hend
    obtain ⟨k, rfl⟩ : ∃ k, fuel = k + 1 := ⟨fuel - 1, by simp at hfuel; omega⟩
    have hhead : buf (s + n) = 48 + d.val := hbuf.1
    have hdig : isdigit (buf (s + n)) = true := by rw [hhead]; exact isdigit_digit d
    have htail : holds buf (s + (n + 1)) (param_bytes ds) := by
      have := hbuf.2
      simpa [Nat.add_assoc] using this
    have hend1 : isdigit (buf (s + (n + 1) + ds.length)) = false := by
      have he : s + (n + 1) + ds.length = s + n + (d :: ds).length := by simp; omega
      rw [he]; exact hend
    have hrec := ih k ((10 * i + d.val) % SIZE_MAX_PLUS_1) (n + 1)
      (by simp at hfuel; omega) htail hend1
    rw [set_mode_number]
    simp only [hdig, if_true]
    rw [hhead, Nat.add_sub_cancel_left, hrec]
    simp [digits_word]
    omega

theorem param_bytes_length (p : List (Fin 10)) : (param_bytes p).length = p.length := by
  simp [param_bytes]

/-- One iteration of the outer loop of `set_mode` on a parameter `p` that is
followed by the character `c` (no digit): a known mode is applied and the
loop goes on behind the parameter (and behind `c` when it is `;`), an unknown
one makes `set_mode` return 0. The mode is the parameter as the 32-bit
accumulator holds it. -/
theorem set_mode_loop_param (v : vga_h) (s fuel n intensity : Nat) (t : tty)
    (p : List (Fin 10)) (hp : p ≠ []) (c : Nat) (hc : isdigit c = false)
    (hbuf : holds t.tty_buf (s + n) (param_bytes p ++ [c])) (hfuel : p.length ≤ fuel + 1) :
    (sgr_mode (param_value p % SIZE_MAX_PLUS_1) →
      ∃ intensity1 fg bg color,
        set_mode_loop v s (fuel + 1) n intensity t =
          set_mode_loop v s fuel (if c = 59 then n + p.length + 1 else n + p.length) intensity1
            (recolor t fg bg color)) ∧
    (¬ sgr_mode (param_value p % SIZE_MAX_PLUS_1) →
      set_mode_loop v s (fuel + 1) n intensity t = some (t, 0)) := by
  obtain ⟨hdigits, hafter⟩ := (holds_append _ _ _ _).1 hbuf
  rw [param_bytes_length] at hafter
  have hc1 : t.tty_buf (s + n + p.length) = c := hafter.1
  have hfirst : t.tty_buf (s + n) ≠ 109 := by
    cases p with
    | nil => exact absurd rfl hp
    | cons d ds =>
      have h1 : t.tty_buf (s + n) = 48 + d.val := hdigits.1
      have := d.isLt
      omega
  have hnum : set_mode_number t.tty_buf s (fuel + 1) 0 n
      = some (param_value p % SIZE_MAX_PLUS_1, n + p.length) := by
    rw [set_mode_number_digits t.tty_buf s p (fuel + 1) 0 n hfuel hdigits (by rw [hc1]; exact hc),
      digits_word_zero]
  have hc2 : t.tty_buf (s + (n + p.length)) = c := by rw [← Nat.add_assoc]; exact hc1
  rw [set_mode_loop]
  simp only [hfirst, ne_eq, not_false_eq_true, if_true, hnum, hc2]
  generalize param_value p % SIZE_MAX_PLUS_1 = i
  constructor
  · intro hmode
    by_cases h0 : i = 0
    · exact ⟨v.VGA_NORMAL, t.vga_fg, t.vga_bg, v.vga_entry_color t.vga_fg t.vga_bg, by
        simp only [h0, if_true]; rfl⟩
    · by_cases h1 : i = 1
      · exact ⟨v.VGA_BOLD, t.vga_fg, t.vga_bg, v.vga_entry_color t.vga_fg t.vga_bg, by
          simp only [h0, h1, if_true, if_false]; rfl⟩
      · by_cases h3 : 30 ≤ i ∧ i ≤ 37
        · exact ⟨intensity, ((i - 30) ||| intensity) % 256, t.vga_bg,
            v.vga_entry_color (((i - 30) ||| intensity) % 256) t.vga_bg, by
              simp only [h0, h1, h3, if_true, if_false, and_self]; rfl⟩
        · have h4 : 40 ≤ i ∧ i ≤ 47 := by
            unfold sgr_mode at hmode
            omega
          exact ⟨intensity, t.vga_fg, ((i - 40) ||| intensity) % 256,
            v.vga_entry_color t.vga_fg (((i - 40) ||| intensity) % 256), by
              simp only [h0, h1, h3, h4, if_true, if_false, and_self]; rfl⟩
  · intro hmode
    have h0 : i ≠ 0 := fun h => hmode (Or.inl h)
    have h1 : i ≠ 1 := fun h => hmode (Or.inr (Or.inl h))
    have h3 : ¬ (30 ≤ i ∧ i ≤ 37) := fun h => hmode (Or.inr (Or.inr (Or.inl h)))
    have h4 : ¬ (40 ≤ i ∧ i ≤ 47) := fun h => hmode (Or.inr (Or.inr (Or.inr h)))
    simp only [h0, h1, h3, h4, if_false]

theorem set_mode_loop_at_m (v : vga_h) (s fuel n intensity : Nat) (t : tty)
    (hm : t.tty_buf (s + n) = 109) :
    set_mode_loop v s fuel n intensity t = some (t, n) := by
  cases fuel <;> simp [set_mode_loop, hm]

/-- The outer loop of `set_mode` on a list of parameters that ends at `m`:
when every parameter (as the 32-bit accumulator holds it) is a known mode the
loop returns the number of characters up to the `m`, when one is not it
returns 0; either way only the colour variables change. -/
theorem set_mode_loop_params (v : vga_h) (s : Nat) (P : List (List (Fin 10))) :
    (∀ p ∈ P, p ≠ []) →
    ∀ (fuel n intensity : Nat) (t : tty), (params_bytes P).length ≤ fuel →
      holds t.tty_buf (s + n) (params_bytes P ++ [109]) →
      ((∀ p ∈ P, sgr_mode (param_value p % SIZE_MAX_PLUS_1)) →
        ∃ fg bg color, set_mode_loop v s fuel n intensity t
          = some (recolor t fg bg color, n + (params_bytes P).length)) ∧
      ((∃ p ∈ P, ¬ sgr_mode (param_value p % SIZE_MAX_PLUS_1)) →
        ∃ fg bg color, set_mode_loop v s fuel n intensity t
          = some (recolor t fg bg color, 0)) := by
  induction P with
  | nil =>
    intro _ fuel n intensity t _ hbuf
    have hm : t.tty_buf (s + n) = 109 := hbuf.1
    refine ⟨fun _ => ⟨t.vga_fg, t.vga_bg, t.vga_color, ?_⟩, ?_⟩
    · rw [set_mode_loop_at_m v s fuel n intensity t hm]; rfl
    · rintro ⟨p, hp, _⟩
      exact absurd hp (List.not_mem_nil p)
  | cons p rest ih =>
    intro hne fuel n intensity t hfuel hbuf
    have hp : p ≠ [] := hne p (List.mem_cons_self p rest)
    have hrest : ∀ q ∈ rest, q ≠ [] := fun q hq => hne q (List.mem_cons_of_mem p hq)
    have hplen : 0 < p.length := List.length_pos.mpr hp
    -- the character behind `p`, and where the rest of the list starts
    obtain ⟨c, hc, hcbuf, hlen, htail⟩ : ∃ c, isdigit c = false ∧
        holds t.tty_buf (s + n) (param_bytes p ++ [c]) ∧
        (params_bytes (p :: rest)).length
          = (if c = 59 then p.length + 1 else p.length) + (params_bytes rest).length ∧
        holds t.tty_buf (s + (if c = 59 then n + p.length + 1 else n + p.length))
          (params_bytes rest ++ [109]) := by
      cases rest with
      | nil =>
        refine ⟨109, by decide, hbuf, by simp [params_bytes, param_bytes_length], ?_⟩
        have h2 := ((holds_append _ _ _ _).1 hbuf).2
        simpa [params_bytes, param_bytes_length, Nat.add_assoc] using h2
      | cons q ps =>
        have hb : holds t.tty_buf (s + n)
            ((param_bytes p ++ [59]) ++ (params_bytes (q :: ps) ++ [109])) := by
          simpa [params_bytes] using hbuf
        obtain ⟨h1, h2⟩ := (holds_append _ _ _ _).1 hb
        refine ⟨59, by decide, h1, ?_, ?_⟩
        · simp [params_bytes, param_bytes_length]
          omega
        · simpa [param_bytes_length, Nat.add_assoc] using h2
    obtain ⟨k, rfl⟩ : ∃ k, fuel = k + 1 := ⟨fuel - 1, by
      have : 0 < (params_bytes (p :: rest)).length := by rw [hlen]; split <;> omega
      omega⟩
    have hpfuel : p.length ≤ k + 1 := by
      rw [hlen] at hfuel
      split at hfuel <;> omega
    have hkfuel : (params_bytes rest).length ≤ k := by
      rw [hlen] at hfuel
      split at hfuel <;> omega
    obtain ⟨hgood, hbad⟩ := set_mode_loop_param v s k n intensity t p hp c hc hcbuf hpfuel
    constructor
    · intro hall
      obtain ⟨i1, fg, bg, color, hstep⟩ := hgood (hall p (List.mem_cons_self p rest))
      obtain ⟨fg2, bg2, color2, hfin⟩ := (ih hrest k _ i1 (recolor t fg bg color) hkfuel htail).1
        (fun q hq => hall q (List.mem_cons_of_mem p hq))
      refine ⟨fg2, bg2, color2, ?_⟩
      rw [hstep, hfin, hlen]
      have hidx : (if c = 59 then n + p.length + 1 else n + p.length) + (params_bytes rest).length
          = n + ((if c = 59 then p.length + 1 else p.length) + (params_bytes rest).length) := by
        split <;> omega
      rw [hidx]
      rfl
    · rintro ⟨q, hq, hqbad⟩
      by_cases hpm : sgr_mode (param_value p % SIZE_MAX_PLUS_1)
      · obtain ⟨i1, fg, bg, color, hstep⟩ := hgood hpm
        have hqrest : q ∈ rest := by
          rcases List.mem_cons.mp hq with h | h
          · subst h; exact absurd hpm hqbad
          · exact h
        obtain ⟨fg2, bg2, color2, hfin⟩ :=
          (ih hrest k _ i1 (recolor t fg bg color) hkfuel htail).2 ⟨q, hqrest, hqbad⟩
        exact ⟨fg2, bg2, color2, by rw [hstep, hfin]; rfl⟩
      · exact ⟨t.vga_fg, t.vga_bg, t.vga_color, by rw [hbad hpm]; rfl⟩

theorem params_bytes_scanned (P : List (List (Fin 10))) :
    ∀ b ∈ params_bytes P, (isdigit b || b == 59) = true := by
  induction P with
  | nil => intro b hb; simp [params_bytes] at hb
  | cons p rest ih =>
    have hpb : ∀ b ∈ param_bytes p, (isdigit b || b == 59) = true := by
      intro b hb
      obtain ⟨d, _, rfl⟩ := List.mem_map.mp hb
      simp [isdigit_digit d]
    cases rest with
    | nil => simpa [params_bytes] using hpb
    | cons q ps =>
      intro b hb
      simp only [params_bytes, List.mem_append, List.mem_cons] at hb
      rcases hb with hb | hb | hb
      · exact hpb b hb
      · subst hb; decide
      · exact ih b hb

/-- The scan of `get_ansi_command` over digits and semicolons stops at the
first other character and returns it. -/
theorem get_ansi_command_scan (buf : Nat → Nat) (bs : List Nat) (c : Nat)
    (hc : (isdigit c || c == 59) = false) :
    (∀ b ∈ bs, (isdigit b || b == 59) = true) →
    ∀ (fuel s : Nat), bs.length ≤ fuel → holds buf s (bs ++ [c]) →
      get_ansi_command buf fuel s = some c := by
  induction bs with
  | nil =>
    intro _ fuel s _ hbuf
    have hs : buf s = c := hbuf.1
    cases fuel <;> simp [get_ansi_command, hs, hc]
  | cons b bs ih =>
    intro hall fuel s hfuel hbuf
    obtain ⟨k, rfl⟩ : ∃ k, fuel = k + 1 := ⟨fuel - 1, by simp at hfuel; omega⟩
    have hs : buf s = b := hbuf.1
    have hb := hall b (List.mem_cons_self b bs)
    rw [get_ansi_command]
    simp only [hs, hb, if_true]
    exact ih (fun x hx => hall x (List.mem_cons_of_mem b hx)) k (s + 1)
      (by simp at hfuel; omega) hbuf.2

theorem tty_flush_loop_esc (v : vga_h) (fuel count s : Nat) (t : tty)
    (hs : s < t.tty_pos) (hesc : t.tty_buf s = 27) :
    tty_flush_loop v fuel (count + 1) s t =
      match process_ansi_esc v fuel s t with
      | none => none
      | some (t1, n) =>
        if n = 0 then
          tty_flush_loop v fuel count (s + 1)
            (tty_advance v
              (tty_put v (char_to_int (t1.tty_buf s)) t1.vga_color t1.vga_col t1.vga_row t1))
        else tty_flush_loop v fuel count (s + n + 1) t1 := by
  rw [tty_flush_loop]
  simp [hs, hesc, ASCII_ESC]

theorem params_bytes_length_pos (P : List (List (Fin 10))) (hne : P ≠ [])
    (hparams : ∀ p ∈ P, p ≠ []) : 0 < (params_bytes P).length := by
  cases P with
  | nil => exact absurd rfl hne
  | cons p rest =>
    have hp : 0 < p.length := List.length_pos.mpr (hparams p (List.mem_cons_self p rest))
    cases rest with
    | nil => simpa [params_bytes, param_bytes_length] using hp
    | cons q ps => simp [params_bytes, param_bytes_length]

/-- C11 (as the code behaves): let the buffer hold, from index `s`, the
string ESC `[` P `m`, where P is a list of decimal parameters separated by
`;`, the `m` lying in the buffered part. If P is not empty and every
parameter is one of 0, 1, 30..37, 40..47, then `set_mode` returns the length
of P and `process_ansi_esc` returns 2 + length(P), the offset of the `m`; the
iteration of `tty_flush` at the ESC stores nothing, leaves the cursor where it
is (only the colour variables change) and the loop goes on at the character
behind `m`. If P is empty, or some parameter is outside that set once reduced
modulo 2^32 (the accumulator of `set_mode` is a 32-bit `size_t`), then
`process_ansi_esc` returns 0 and the iteration prints the ESC byte like any
other character. -/
theorem ansi_graphics_mode_sequence (v : vga_h) (t : tty) (s fuel count : Nat)
    (P : List (List (Fin 10))) (hparams : ∀ p ∈ P, p ≠ [])
    (hbuf : holds t.tty_buf s ([27, 91] ++ params_bytes P ++ [109]))
    (hin : s + 2 + (params_bytes P).length < t.tty_pos) (hpos : t.tty_pos ≤ TTY_BUFSIZE)
    (hfuel : (params_bytes P).length ≤ fuel) :
    (P ≠ [] → (∀ p ∈ P, sgr_mode (param_value p)) →
      ∃ fg bg color,
        set_mode v fuel (s + 2) t = some (recolor t fg bg color, (params_bytes P).length) ∧
        process_ansi_esc v fuel s t
          = some (recolor t fg bg color, 2 + (params_bytes P).length) ∧
        tty_flush_loop v fuel (count + 1) s t
          = tty_flush_loop v fuel count (s + 2 + (params_bytes P).length + 1)
              (recolor t fg bg color)) ∧
    ((P = [] ∨ ∃ p ∈ P, ¬ sgr_mode (param_value p % SIZE_MAX_PLUS_1)) →
      ∃ fg bg color,
        process_ansi_esc v fuel s t = some (recolor t fg bg color, 0) ∧
        tty_flush_loop v fuel (count + 1) s t
          = tty_flush_loop v fuel count (s + 1)
              (tty_advance v
                (tty_put v 27 color t.vga_col t.vga_row (recolor t fg bg color)))) := by
  have hb : holds t.tty_buf s ([27, 91] ++ (params_bytes P ++ [109])) := by
    simpa [List.append_assoc] using hbuf
  obtain ⟨hhead, hrest⟩ := (holds_append _ _ _ _).1 hb
  have hesc : t.tty_buf s = 27 := hhead.1
  have hbracket : t.tty_buf (s + 1) = 91 := hhead.2.1
  have hrest2 : holds t.tty_buf (s + 2) (params_bytes P ++ [109]) := hrest
  have hs : s < t.tty_pos := by omega
  have hcmd : get_ansi_command t.tty_buf fuel (s + 2) = some 109 :=
    get_ansi_command_scan t.tty_buf (params_bytes P) 109 (by decide)
      (params_bytes_scanned P) fuel (s + 2) hfuel hrest2
  obtain ⟨hgood, hbad⟩ := set_mode_loop_params v (s + 2) P hparams fuel 0 v.VGA_NORMAL t hfuel
    (by simpa using hrest2)
  have hbufsize : t.tty_pos ≤ 2000 := hpos
  constructor
  · intro hne hall
    have hallw : ∀ p ∈ P, sgr_mode (param_value p % SIZE_MAX_PLUS_1) := by
      intro p hp
      have hm := hall p hp
      have hlt : param_value p < SIZE_MAX_PLUS_1 := by
        unfold sgr_mode at hm
        unfold SIZE_MAX_PLUS_1
        omega
      rw [Nat.mod_eq_of_lt hlt]
      exact hm
    obtain ⟨fg, bg, color, hset⟩ := hgood hallw
    have hset2 : set_mode v fuel (s + 2) t
        = some (recolor t fg bg color, (params_bytes P).length) := by
      rw [set_mode, hset, Nat.zero_add]
    have hlen := params_bytes_length_pos P hne hparams
    have hmod : (2 + (params_bytes P).length) % SIZE_MAX_PLUS_1 = 2 + (params_bytes P).length :=
      Nat.mod_eq_of_lt (by unfold SIZE_MAX_PLUS_1; omega)
    have hproc : process_ansi_esc v fuel s t
        = some (recolor t fg bg color, 2 + (params_bytes P).length) := by
      simp only [process_ansi_esc, hbracket, hcmd, hset2, hmod, ne_eq, not_true_eq_false,
        if_false, if_true]
      rw [if_neg (by omega)]
    refine ⟨fg, bg, color, hset2, hproc, ?_⟩
    rw [tty_flush_loop_esc v fuel count s t hs hesc, hproc]
    simp only []
    rw [if_neg (by omega), ← Nat.add_assoc]
  · intro hcase
    have hzero : ∃ fg bg color, set_mode v fuel (s + 2) t = some (recolor t fg bg color, 0) := by
      rcases hcase with hnil | hex
      · subst hnil
        obtain ⟨fg, bg, color, hset⟩ := hgood (fun p hp => absurd hp (List.not_mem_nil p))
        exact ⟨fg, bg, color, by rw [set_mode, hset]; rfl⟩
      · obtain ⟨fg, bg, color, hset⟩ := hbad hex
        exact ⟨fg, bg, color, by rw [set_mode, hset]⟩
    obtain ⟨fg, bg, color, hset2⟩ := hzero
    have hproc : process_ansi_esc v fuel s t = some (recolor t fg bg color, 0) := by
      simp only [process_ansi_esc, hbracket, hcmd, hset2, ne_eq, not_true_eq_false,
        if_false, if_true]
      rfl
    refine ⟨fg, bg, color, hproc, ?_⟩
    rw [tty_flush_loop_esc v fuel count s t hs hesc, hproc]
    simp only [if_true]
    have hch : char_to_int ((recolor t fg bg color).tty_buf s) = 27 := by
      show char_to_int (t.tty_buf s) = 27
      rw [hesc]
      rfl
    rw [hch]
    rfl

/-- C11 witness: for the buffered string `ESC [ 3 1 ; 1 m A` the escape
sequence is consumed (`set_mode` returns 4, `process_ansi_esc` returns 6, the
loop goes on at index 7, the `A`); for `ESC [ 9 9 m A` the call returns 0 and
the ESC is printed at the cursor. -/
theorem ansi_graphics_mode_sequence_witness :
    (∃ fg bg color,
      set_mode standard_vga 16 2 (tty_buffered esc_red_bold)
        = some (recolor (tty_buffered esc_red_bold) fg bg color, 4) ∧
      process_ansi_esc standard_vga 16 0 (tty_buffered esc_red_bold)
        = some (recolor (tty_buffered esc_red_bold) fg bg color, 6) ∧
      tty_flush_loop standard_vga 16 (7 + 1) 0 (tty_buffered esc_red_bold)
        = tty_flush_loop standard_vga 16 7 7 (recolor (tty_buffered esc_red_bold) fg bg color)) ∧
    (∃ fg bg color,
      process_ansi_esc standard_vga 16 0 (tty_buffered esc_unknown_mode)
        = some (recolor (tty_buffered esc_unknown_mode) fg bg color, 0) ∧
      tty_flush_loop standard_vga 16 (5 + 1) 0 (tty_buffered esc_unknown_mode)
        = tty_flush_loop standard_vga 16 5 1
            (tty_advance standard_vga
              (tty_put standard_vga 27 color 0 0
                (recolor (tty_buffered esc_unknown_mode) fg bg color)))) :=
  ⟨(ansi_graphics_mode_sequence standard_vga (tty_buffered esc_red_bold) 0 16 7 [[3, 1], [1]]
      (by decide) (by decide) (by decide) (by decide) (by decide)).1 (by decide) (by decide),
   (ansi_graphics_mode_sequence standard_vga (tty_buffered esc_unknown_mode) 0 16 5 [[9, 9]]
      (by decide) (by decide) (by decide) (by decide) (by decide)).2
      (Or.inr ⟨[9, 9], List.mem_singleton.mpr rfl, by decide⟩)⟩

/-- C11 counterexample: the buffered string `ESC [ 4 2 9 4 9 6 7 2 9 6 m`
has the single parameter 4294967296, which is none of 0, 1, 30..37, 40..47;
yet `process_ansi_esc` returns 12, not 0, and flushing the string after
`tty_init` prints nothing (no cell is stored to, the cursor stays at row 0,
column 0): the 32-bit accumulator has wrapped the parameter to 0. -/
theorem ansi_overflowing_parameter_is_accepted :
    param_value [4, 2, 9, 4, 9, 6, 7, 2, 9, 6] = 4294967296 ∧ ¬ sgr_mode 4294967296 ∧
    holds (tty_buffered esc_overflow).tty_buf 0
      ([27, 91] ++ params_bytes [[4, 2, 9, 4, 9, 6, 7, 2, 9, 6]] ++ [109]) ∧
    (process_ansi_esc standard_vga 16 0 (tty_buffered esc_overflow)).map Prod.snd = some 12 ∧
    (tty_calls standard_vga 16 [.write esc_overflow, .flush]
        (tty_init standard_vga tty_boot)).map (fun t => (t.vga_row, t.vga_col, t.written))
      = some (0, 0, []) := by
  decide!

end Radix
